import Mathlib

/-!
RuC utilities: `vector.c` and `map.c`

A shallow embedding of `libs/utils/vector.c` and `libs/utils/map.c`.

Conventions of the embedding.

* `size_t` is a natural number below `2 ^ 64 = 18446744073709551616`; every arithmetic operation
  of the source that can wrap is written with an explicit `% 18446744073709551616`.
* A pointer to a heap block is the block itself (a function from offsets to cells, cells never
  written hold whatever the allocator left there) and a flag telling whether the pointer is
  `NULL`. The block of a `vector` also carries its size in bytes: the byte offset of an item is
  computed in `size_t`, and an operation that reads or writes outside the block has no defined
  behaviour, its result is `none`.
* `malloc` and `realloc` are oracles: the caller of a definition supplies their outcome.
  A successful `realloc` keeps the cells of the block; for `vector.c` the outcome also tells
  whether a failed call left the block allocated or, on a request of 0 bytes, released it.
* Headers that are not part of the sources (`vector.h`, `map.h`, `utf8.h`, `uniscanner.h`) supply
  constants and helpers; they are parameters of the definitions that use them.
-/

namespace RuC

/-- Largest value of `size_t`. -/
def SIZE_MAX : Nat := 2 ^ 64 - 1

/-! ## vector.c -/

/-- The `vector` structure of `vector.h`. The pointer `array` is modelled by the block it
addresses: `array k` is the item stored at byte offset `k * sizeof(item_t)`, `array_bytes` is the
number of bytes the allocator gave the block (`0` once the block has been released), and
`array_null` tells whether the pointer is `NULL`. -/
structure vector where
  array : Nat → Int
  array_null : Bool
  array_bytes : Nat
  size : Nat
  size_alloc : Nat

/-- What a call `realloc(ptr, bytes)` can do: return a block of `bytes` bytes that keeps the
content (`moved`); return `NULL` and leave the block as it is (`failed`); or, when `bytes` is `0`,
release the block and return `NULL` (`released`, what the GNU C library does). -/
inductive realloc_result
  | moved
  | failed
  | released
  deriving DecidableEq

/-- Byte offset of `array[index]` in the block: `index * sizeof(item_t)` computed in `size_t`. -/
def vector_offset (item_size index : Nat) : Nat :=
  index * item_size % 18446744073709551616

/-- The cell of the block `array[index]` lands on (`sizeof(item_t)` is a power of two, so the
wrapped byte offset is a multiple of it). -/
def vector_cell (item_size index : Nat) : Nat :=
  vector_offset item_size index / item_size

/-- Whether `array[index]` lies inside the block. An access outside the block has no defined
behaviour; the operations below yield `none` for it. -/
def vector_in_block (item_size : Nat) (vec : vector) (index : Nat) : Bool :=
  decide (vector_offset item_size index + item_size ≤ vec.array_bytes)

/-- Source `vector_is_correct`: `vec != NULL && vec->array != NULL` (the structure itself is
always addressed by a valid pointer here). -/
def vector_is_correct (vec : vector) : Bool :=
  !vec.array_null

/-- Source `vector_create`; `item_size` is `sizeof(item_t)`, `malloc_ok` the outcome of
`malloc(vec.size_alloc * sizeof(item_t))`, `junk` the content of the fresh block. -/
def vector_create (item_size : Nat) (malloc_ok : Bool) (junk : Nat → Int) (alloc : Nat) :
    vector :=
  { size := 0
    size_alloc := if alloc ≠ 0 then alloc else 1
    array := junk
    array_bytes :=
      if malloc_ok then (if alloc ≠ 0 then alloc else 1) * item_size % 18446744073709551616
      else 0
    array_null := !malloc_ok }

/-- The cells after `memset(&vec->array[vec->size], 0, size * sizeof(item_t))`: the bytes from
the offset of `array[vec->size]` on are cleared, their number is `size * sizeof(item_t)` computed
in `size_t`. -/
def vector_memset (item_size : Nat) (vec : vector) (size : Nat) : Nat → Int :=
  fun k =>
    if vector_offset item_size vec.size ≤ k * item_size ∧
        (k + 1) * item_size ≤
          vector_offset item_size vec.size + size * item_size % 18446744073709551616 then 0
    else vec.array k

/-- Lines 54-56 of source `vector_increase`: the `memset` call, `vec->size += size` and
`return 0`. The result is `none` when `memset` runs past the end of the block. -/
def vector_increase_fill (item_size : Nat) (vec : vector) (size : Nat) : Option (vector × Int) :=
  if size * item_size % 18446744073709551616 = 0 ∨
      vector_offset item_size vec.size + size * item_size % 18446744073709551616
        ≤ vec.array_bytes then
    some ({ vec with array := vector_memset item_size vec size
                     size := (vec.size + size) % 18446744073709551616 }, 0)
  else none

/-- The local `alloc_new` of source `vector_increase`. -/
def vector_alloc_new (vec : vector) (size : Nat) : Nat :=
  if (vec.size + size) % 18446744073709551616 > 2 * vec.size_alloc % 18446744073709551616
  then (vec.size + size) % 18446744073709551616
  else 2 * vec.size_alloc % 18446744073709551616

/-- Source `vector_increase`; `item_size` is `sizeof(item_t)`, `realloc` the outcome of the call
`realloc(vec->array, alloc_new * sizeof(item_t))` when it is made (a request of more than 0 bytes
never releases the block). Yields the vector after the call and the `int` result, or `none` when
the call accesses memory outside the block. -/
def vector_increase (item_size : Nat) (realloc : realloc_result) (vec : vector) (size : Nat) :
    Option (vector × Int) :=
  if !vector_is_correct vec then some (vec, -1)
  else if (vec.size + size) % 18446744073709551616 > vec.size_alloc then
    match realloc with
    | realloc_result.failed => some (vec, -1)
    | realloc_result.released =>
      if vector_alloc_new vec size * item_size % 18446744073709551616 = 0 then
        some ({ vec with array_bytes := 0 }, -1)
      else some (vec, -1)
    | realloc_result.moved =>
      vector_increase_fill item_size
        { vec with
            size_alloc := vector_alloc_new vec size
            array_bytes := vector_alloc_new vec size * item_size % 18446744073709551616 } size
  else vector_increase_fill item_size vec size

/-- Lines 78-79 of source `vector_add`: `vec->array[vec->size] = value; return vec->size++`. The
result is `none` when the item lies outside the block. -/
def vector_add_store (item_size : Nat) (vec : vector) (value : Int) : Option (vector × Nat) :=
  if vector_in_block item_size vec vec.size then
    some ({ vec with array := Function.update vec.array (vector_cell item_size vec.size) value
                     size := (vec.size + 1) % 18446744073709551616 }, vec.size)
  else none

/-- Source `vector_add`; `realloc` is the outcome of the call
`realloc(vec->array, 2 * vec->size_alloc * sizeof(item_t))` when it is made. Yields the vector
after the call and the `size_t` result, or `none` when the call writes outside the block. -/
def vector_add (item_size : Nat) (realloc : realloc_result) (vec : vector) (value : Int) :
    Option (vector × Nat) :=
  if !vector_is_correct vec then some (vec, SIZE_MAX)
  else if vec.size = vec.size_alloc then
    match realloc with
    | realloc_result.failed => some (vec, SIZE_MAX)
    | realloc_result.released =>
      if 2 * vec.size_alloc * item_size % 18446744073709551616 = 0 then
        some ({ vec with array_bytes := 0 }, SIZE_MAX)
      else some (vec, SIZE_MAX)
    | realloc_result.moved =>
      vector_add_store item_size
        { vec with size_alloc := vec.size_alloc * 2 % 18446744073709551616
                   array_bytes := 2 * vec.size_alloc * item_size % 18446744073709551616 } value
  else vector_add_store item_size vec value

/-- Source `vector_set`; `none` when `array[index]` lies outside the block. -/
def vector_set (item_size : Nat) (vec : vector) (index : Nat) (value : Int) :
    Option (vector × Int) :=
  if !vector_is_correct vec || index ≥ vec.size then some (vec, -1)
  else if vector_in_block item_size vec index then
    some ({ vec with array := Function.update vec.array (vector_cell item_size index) value }, 0)
  else none

/-- Source `vector_get`; `ITEM_MAX` comes from `vector.h`; `none` when `array[index]` lies
outside the block. -/
def vector_get (ITEM_MAX : Int) (item_size : Nat) (vec : vector) (index : Nat) : Option Int :=
  if !vector_is_correct vec || index ≥ vec.size then some ITEM_MAX
  else if vector_in_block item_size vec index then some (vec.array (vector_cell item_size index))
  else none

/-- Source `vector_size`. -/
def vector_size (vec : vector) : Nat :=
  if vector_is_correct vec then vec.size else SIZE_MAX

/-- Source `vector_clear`. -/
def vector_clear (vec : vector) : vector × Int :=
  if !vector_is_correct vec then (vec, -1)
  else ({ vec with array_null := true, array_bytes := 0 }, 0)

/-- The item sequence a vector holds: the items `array[0] .. array[size - 1]`. -/
def vector_items (item_size : Nat) (vec : vector) : List Int :=
  (List.range vec.size).map fun i => vec.array (vector_cell item_size i)

/-- The block of the vector holds the items its fields announce: an item takes at least one byte,
`1 ≤ size_alloc`, `size ≤ size_alloc`, and the block has at least `size_alloc * sizeof(item_t)`
bytes, a product that does not overflow `size_t`. -/
def vector_holds (item_size : Nat) (vec : vector) : Prop :=
  0 < item_size ∧ 0 < vec.size_alloc ∧ vec.size ≤ vec.size_alloc ∧
    vec.size_alloc * item_size ≤ vec.array_bytes ∧ vec.array_bytes < 18446744073709551616

/-- A small vector whose block is full: items `5, 6`, capacity `2`, a block of 8 bytes. -/
def vector_full : vector :=
  { array := fun i => if i = 0 then 5 else if i = 1 then 6 else 0
    array_null := false
    array_bytes := 8
    size := 2
    size_alloc := 2 }

/-- The first component of the result of a call that returns. -/
def vector_after {α : Type} (r : Option (vector × α)) (junk : Nat → Int) : vector :=
  match r with
  | some x => x.1
  | none => { array := junk, array_null := true, array_bytes := 0, size := 0, size_alloc := 0 }

/-- The vector `vector_create(1)`, its block holding the value 7. -/
def vector_one : vector :=
  vector_create 4 true (fun _ => 7) 1

/-- The vector `vector_create(2 ^ 62 + 2)` after `vector_increase(n)`. The byte count of the
`malloc` call, `(2 ^ 62 + 2) * 4`, wraps to 8: the block has two cells, both holding 7 at
first. -/
def vector_wrapped (n : Nat) : vector :=
  vector_after (vector_increase 4 realloc_result.moved
    (vector_create 4 true (fun _ => 7) 4611686018427387906) n) (fun _ => 7)
/-! ## map.c -/

/-- Source constant `MAP_HASH_MAX`. -/
def MAP_HASH_MAX : Nat := 256

/-- Source constant `MAP_KEY_SIZE`. -/
def MAP_KEY_SIZE : Nat := 8

/-- Source `struct map_hash`. -/
structure map_hash where
  next : Nat
  ref : Nat
  value : Int

/-- The `map` structure of `map.h`, with the fields `map.c` uses: the node block `values`, the
character block `keys` (one byte per cell) and their sizes. -/
structure map where
  values : Nat → map_hash
  values_null : Bool
  values_size : Nat
  values_alloc : Nat
  keys : Nat → Nat
  keys_null : Bool
  keys_size : Nat
  keys_alloc : Nat
  keys_next : Nat

/-- What `map.c` takes from `utf8.h`, `uniscanner.h` and the C library. None of it is part of the
sources, so it is a parameter.

* `utf8_convert p` is the code point decoded from the bytes at `p`;
* `utf8_to_string c` is the list of bytes the call stores at the start of its buffer and the size
  it returns;
* `char_signed` tells whether plain `char` is a signed type on the target;
* `strcmp x y` is the result of `strcmp` on the two arguments `map_cmp_key` passes, `none` when
  the call does not return;
* `EOF` is what `uni_scan_char` yields at the end of the input. -/
structure helpers where
  MAX_SYMBOL_SIZE : Nat
  char_signed : Bool
  utf8_convert : (Nat → Nat) → Nat
  utf8_is_letter : Nat → Bool
  utf8_is_digit : Nat → Bool
  utf8_to_string : Nat → List Nat × Nat
  strcmp : Nat → Nat → Option Int
  EOF : Nat

/-- Modelled from the spec: `universal_io` and `uni_scan_char` are not part of the sources; the
input is a "character-at-a-time pull of UTF-8 code points", here the list of code points still to
be read, with the flag answered by `in_is_correct`. -/
structure universal_io where
  chars : List Nat
  correct : Bool

/-- Modelled from the spec: `uni_scan_char` pulls one code point, or yields `EOF` when the input
is exhausted. -/
def uni_scan_char (h : helpers) (io : universal_io) : Nat × universal_io :=
  match io.chars with
  | [] => (h.EOF, io)
  | c :: rest => (c, { io with chars := rest })

/-- The parameter `const char ch` of `map_add_key_symbol` receives a `char32_t`: the value is
reduced to one byte (negative from `0x80` on when `char` is signed), and is widened back to
`char32_t` when it is handed to `utf8_to_string`. -/
def char_param (h : helpers) (ch : Nat) : Nat :=
  if h.char_signed && 128 ≤ ch % 256 then ch % 256 + 4294967040 else ch % 256

/-- Bytes `bytes` stored from offset `pos` on in the block `buf`. -/
def write_bytes (buf : Nat → Nat) (pos : Nat) (bytes : List Nat) : Nat → Nat :=
  fun i => if pos ≤ i ∧ i < pos + bytes.length then bytes.getD (i - pos) 0 else buf i

/-- Source `map_add_key_symbol`. `realloc k` is the outcome of the `k`-th `realloc` call, `n` the
number of calls made so far; the result carries the map, the updated count and the `int` result.
`none` means the recursion did not end within `fuel` calls. -/
def map_add_key_symbol (h : helpers) (realloc : Nat → Bool) :
    Nat → map → Nat → Nat → Option (map × Nat × Int)
  | 0, _, _, _ => none
  | fuel + 1, as, n, ch =>
    if h.MAX_SYMBOL_SIZE ≤ (as.keys_alloc + 18446744073709551616 - as.keys_next) % 18446744073709551616 then
      let out := h.utf8_to_string (char_param h ch)
      some ({ as with keys := write_bytes as.keys as.keys_next out.1
                      keys_next := (as.keys_next + out.2) % 18446744073709551616 }, n, 0)
    else if !realloc n then some (as, n + 1, -1)
    else
      map_add_key_symbol h realloc fuel
        { as with keys_size := as.keys_size * 2 % 18446744073709551616 } (n + 1) ch

/-- The `while` loop of source `map_get_hash`; `key` is the memory at the pointer `key`. -/
def map_get_hash_loop (h : helpers) (realloc : Nat → Bool) (key : Nat → Nat) :
    Nat → map → Nat → Nat → Option (map × Nat × Nat)
  | 0, _, _, _ => none
  | fuel + 1, as, n, hash =>
    let off := (as.keys_next + 18446744073709551616 - as.keys_size) % 18446744073709551616
    if key off = 0 then some (as, n, hash % MAP_HASH_MAX)
    else
      let ch := h.utf8_convert (fun i => key (off + i))
      if !h.utf8_is_letter ch && !h.utf8_is_digit ch then some (as, n, SIZE_MAX)
      else
        match map_add_key_symbol h realloc fuel as n ch with
        | none => none
        | some (as1, n1, r) =>
          if r ≠ 0 then some (as1, n1, SIZE_MAX)
          else map_get_hash_loop h realloc key fuel as1 n1 ((hash + ch) % 18446744073709551616)

/-- Source `map_get_hash`; `key` is the memory at the pointer `key`. The result carries the map,
the `realloc` count and the `size_t` result. -/
def map_get_hash (h : helpers) (realloc : Nat → Bool) (fuel : Nat) (as : map) (n : Nat)
    (key : Nat → Nat) : Option (map × Nat × Nat) :=
  let ch := h.utf8_convert key
  if !h.utf8_is_letter ch then some (as, n, SIZE_MAX)
  else
    match map_add_key_symbol h realloc fuel { as with keys_next := as.keys_size } n ch with
    | none => none
    | some (as1, n1, r) =>
      if r ≠ 0 then some (as1, n1, SIZE_MAX)
      else map_get_hash_loop h realloc key fuel as1 n1 ch

/-- The `while` loop of source `map_get_hash_by_io`; `last` is the content of `*last`. -/
def map_get_hash_by_io_loop (h : helpers) (realloc : Nat → Bool) :
    Nat → map → Nat → universal_io → Nat → Nat → Option (map × Nat × universal_io × Nat × Nat)
  | 0, _, _, _, _, _ => none
  | fuel + 1, as, n, io, last, hash =>
    if h.utf8_is_letter last || h.utf8_is_digit last then
      match map_add_key_symbol h realloc fuel as n last with
      | none => none
      | some (as1, n1, r) =>
        if r ≠ 0 then some (as1, n1, io, last, SIZE_MAX)
        else
          map_get_hash_by_io_loop h realloc fuel as1 n1 (uni_scan_char h io).2
            (uni_scan_char h io).1 ((hash + last) % 18446744073709551616)
    else some (as, n, io, last, hash % MAP_HASH_MAX)

/-- Source `map_get_hash_by_io`; the result carries the map, the `realloc` count, the input after
the call, the content of `*last` and the `size_t` result. -/
def map_get_hash_by_io (h : helpers) (realloc : Nat → Bool) (fuel : Nat) (as : map) (n : Nat)
    (io : universal_io) : Option (map × Nat × universal_io × Nat × Nat) :=
  let last := (uni_scan_char h io).1
  let io1 := (uni_scan_char h io).2
  if !h.utf8_is_letter last then some (as, n, io1, last, SIZE_MAX)
  else
    match map_add_key_symbol h realloc fuel { as with keys_next := as.keys_size } n last with
    | none => none
    | some (as1, n1, r) =>
      if r ≠ 0 then some (as1, n1, io1, last, SIZE_MAX)
      else
        map_get_hash_by_io_loop h realloc fuel as1 n1 (uni_scan_char h io1).2
          (uni_scan_char h io1).1 last

/-- Source `map_cmp_key`: `strcmp(as->keys[as->values[index].ref], as->keys[as->keys_size])`.
Both arguments are the `char` read from the block, not its address, so the result is whatever
the helper `strcmp` yields for these two values. The parameter is `const int index`: an index
from `2 ^ 31 = 2147483648` on becomes negative and the access through it does not return. -/
def map_cmp_key (h : helpers) (as : map) (index : Nat) : Option Int :=
  if index % 4294967296 < 2147483648 then
    h.strcmp (as.keys (as.values (index % 4294967296)).ref) (as.keys as.keys_size)
  else none

/-- The `while` loop of source `map_add_by_hash`: `Sum.inl r` when the loop body returns `r`,
`Sum.inr index` when the loop ends with `index`; `none` when the loop does not end within `fuel`
iterations or `map_cmp_key` does not return. -/
def map_add_by_hash_loop (h : helpers) (as : map) (value : Int) :
    Nat → Nat → Option (Nat ⊕ Nat)
  | 0, _ => none
  | fuel + 1, index =>
    if (as.values index).next ≠ SIZE_MAX then
      match map_cmp_key h as index with
      | none => none
      | some c =>
        if c = 0 then
          some (Sum.inl (if (as.values index).value = value then index else SIZE_MAX))
        else map_add_by_hash_loop h as value fuel (as.values index).next
    else some (Sum.inr index)

/-- Lines 144-146 of source `map_add_by_hash`: the empty node `index` receives the key reference
and the value. -/
def map_fill_node (as : map) (index : Nat) (value : Int) : map :=
  { as with
      values := Function.update as.values index
        { next := (as.values index).next, ref := as.keys_size, value := value }
      keys_size := (as.keys_next + 1) % 18446744073709551616 }

/-- Lines 162-169 of source `map_add_by_hash`: the node `index` is linked to a new node at
`values_size`, which receives the key reference and the value. -/
def map_append_node (as : map) (index : Nat) (value : Int) : map × Nat :=
  let values1 := Function.update as.values index
    { next := as.values_size, ref := (as.values index).ref, value := (as.values index).value }
  ({ as with
      values := Function.update values1 as.values_size
        { next := SIZE_MAX, ref := as.keys_size, value := value }
      values_size := (as.values_size + 1) % 18446744073709551616
      keys_size := (as.keys_next + 1) % 18446744073709551616 }, as.values_size)

/-- Source `map_add_by_hash`; the result carries the map, the `realloc` count and the `size_t`
result. -/
def map_add_by_hash (h : helpers) (realloc : Nat → Bool) (fuel : Nat) (as : map) (n : Nat)
    (hash : Nat) (value : Int) : Option (map × Nat × Nat) :=
  if hash = SIZE_MAX then some (as, n, SIZE_MAX)
  else
    match map_add_by_hash_loop h as value fuel hash with
    | none => none
    | some (Sum.inl r) => some (as, n, r)
    | some (Sum.inr index) =>
      if (as.values index).ref = SIZE_MAX then some (map_fill_node as index value, n, index)
      else if as.values_size = as.values_alloc then
        if !realloc n then some (as, n + 1, SIZE_MAX)
        else
          let as1 := { as with values_size := as.values_size * 2 % 18446744073709551616 }
          some ((map_append_node as1 index value).1, n + 1, (map_append_node as1 index value).2)
      else some ((map_append_node as index value).1, n, (map_append_node as index value).2)

/-- Source `map_broken`: an uninitialised structure `junk` with both blocks `NULL`. -/
def map_broken (junk : map) : map :=
  { junk with values_null := true, keys_null := true }

/-- Source `map_create`. `junk` is the uninitialised structure together with the content of the
two fresh blocks; the flags are the outcomes of the two `malloc` calls. -/
def map_create (malloc_values_ok malloc_keys_ok : Bool) (junk : map) (values : Nat) : map :=
  let values_alloc := (MAP_HASH_MAX + values) % 18446744073709551616
  if !malloc_values_ok then map_broken junk
  else if !malloc_keys_ok then map_broken junk
  else
    { junk with
        values_size := MAP_HASH_MAX
        values_alloc := values_alloc
        values := fun i =>
          if i < MAP_HASH_MAX then
            { next := SIZE_MAX, ref := SIZE_MAX, value := (junk.values i).value }
          else junk.values i
        values_null := false
        keys_size := 0
        keys_alloc := values_alloc * MAP_KEY_SIZE % 18446744073709551616
        keys_null := false }

/-- Source `map_is_correct` (the structure itself is always addressed by a valid pointer). -/
def map_is_correct (as : map) : Bool :=
  !as.values_null && !as.keys_null

/-- Source `map_add`; `key` is the memory at the (non-`NULL`) pointer `key`. -/
def map_add (h : helpers) (realloc : Nat → Bool) (fuel : Nat) (as : map) (n : Nat)
    (key : Nat → Nat) (value : Int) : Option (map × Nat × Nat) :=
  if !map_is_correct as then some (as, n, SIZE_MAX)
  else
    match map_get_hash h realloc fuel as n key with
    | none => none
    | some (as1, n1, hash) => map_add_by_hash h realloc fuel as1 n1 hash value

/-- Source `map_add_by_io`; `last` is the content of `*last` before the call. The result carries
the map, the `realloc` count, the input after the call, `*last` and the `size_t` result. -/
def map_add_by_io (h : helpers) (realloc : Nat → Bool) (fuel : Nat) (as : map) (n : Nat)
    (io : universal_io) (value : Int) (last : Nat) :
    Option (map × Nat × universal_io × Nat × Nat) :=
  if !map_is_correct as || !io.correct then some (as, n, io, last, SIZE_MAX)
  else
    match map_get_hash_by_io h realloc fuel as n io with
    | none => none
    | some (as1, n1, io1, last1, hash) =>
      match map_add_by_hash h realloc fuel as1 n1 hash value with
      | none => none
      | some (as2, n2, r) => some (as2, n2, io1, last1, r)

/-- Source `map_clear`. -/
def map_clear (as : map) : map × Int :=
  if !map_is_correct as then (as, -1)
  else ({ as with values_null := true, keys_null := true }, 0)

/-! ## Sample environment

A concrete instance of the helpers and a few concrete maps, used to run the definitions. -/

/-- A byte of the form `10xxxxxx`. -/
def utf8_continuation (b : Nat) : Bool :=
  decide (128 ≤ b) && decide (b < 192)

/-- UTF-8 decoding of the bytes at `p`; a malformed sequence decodes to U+FFFD. -/
def sample_convert (p : Nat → Nat) : Nat :=
  if p 0 < 128 then p 0
  else if decide (192 ≤ p 0) && decide (p 0 < 224) && utf8_continuation (p 1) then
    (p 0 - 192) * 64 + (p 1 - 128)
  else if decide (224 ≤ p 0) && decide (p 0 < 240) && utf8_continuation (p 1)
      && utf8_continuation (p 2) then
    (p 0 - 224) * 4096 + (p 1 - 128) * 64 + (p 2 - 128)
  else if decide (240 ≤ p 0) && decide (p 0 < 248) && utf8_continuation (p 1)
      && utf8_continuation (p 2) && utf8_continuation (p 3) then
    (p 0 - 240) * 262144 + (p 1 - 128) * 4096 + (p 2 - 128) * 64 + (p 3 - 128)
  else 65533

/-- UTF-8 encoding of a code point followed by the terminator, and the number of bytes of the
encoding; a value that is no code point is stored as U+FFFD. -/
def sample_to_string (c : Nat) : List Nat × Nat :=
  if c < 128 then ([c, 0], 1)
  else if c < 2048 then ([192 + c / 64, 128 + c % 64, 0], 2)
  else if c < 65536 then ([224 + c / 4096, 128 + c / 64 % 64, 128 + c % 64, 0], 3)
  else if c < 1114112 then
    ([240 + c / 262144, 128 + c / 4096 % 64, 128 + c / 64 % 64, 128 + c % 64, 0], 4)
  else ([239, 191, 189, 0], 3)

/-- Letters of the sample environment: `A-Z`, `a-z`, `_`, Greek U+0391..U+03C9 and Cyrillic
U+0410..U+044F. -/
def sample_is_letter (c : Nat) : Bool :=
  (decide (65 ≤ c) && decide (c ≤ 90)) || (decide (97 ≤ c) && decide (c ≤ 122)) || decide (c = 95)
    || (decide (913 ≤ c) && decide (c ≤ 969)) || (decide (1040 ≤ c) && decide (c ≤ 1103))

/-- Digits of the sample environment: `0-9`. -/
def sample_is_digit (c : Nat) : Bool :=
  decide (48 ≤ c) && decide (c ≤ 57)

/-- The sample helpers: standard UTF-8, `MAX_SYMBOL_SIZE = 8`, `EOF = (char32_t)-1`, and a
`strcmp` that does not return when it is handed two characters instead of two addresses. -/
def sample_helpers (char_signed : Bool) : helpers :=
  { MAX_SYMBOL_SIZE := 8
    char_signed := char_signed
    utf8_convert := sample_convert
    utf8_is_letter := sample_is_letter
    utf8_is_digit := sample_is_digit
    utf8_to_string := sample_to_string
    strcmp := fun _ _ => none
    EOF := 4294967295 }

/-- The memory at a pointer to the C string with bytes `s`: the bytes, then zeros. -/
def c_string (s : List Nat) : Nat → Nat :=
  fun i => s.getD i 0

/-- An arbitrary content for an uninitialised `map` and its fresh blocks. -/
def map_junk : map :=
  { values := fun _ => { next := 7, ref := 7, value := 7 }
    values_null := false
    values_size := 7
    values_alloc := 7
    keys := fun _ => 255
    keys_null := false
    keys_size := 7
    keys_alloc := 7
    keys_next := 7 }

/-- A `realloc` that always succeeds. -/
def realloc_always : Nat → Bool :=
  fun _ => true

/-- The map `map_create(1)`. -/
def map_fresh : map :=
  map_create true true map_junk 1



/-- The identifier made of 2049 letters `a`: interned into `map_create(1)` it takes 2050 of the
2056 bytes of the key block, so that fewer than `MAX_SYMBOL_SIZE = 8` bytes are left. -/
def long_key : Nat → Nat :=
  c_string (List.replicate 2049 97)

/-- A `realloc` that succeeds on its first call only. -/
def realloc_once : Nat → Bool :=
  fun k => decide (k = 0)

/-- The `size_t` result of a call on a map. -/
def result_of (r : Option (map × Nat × Nat)) : Option Nat :=
  r.map (fun x => x.2.2)

/-! ## Specification of the identifier scan -/

/-- The set `P` of node indices holds the `MAP_HASH_MAX` bucket heads, is closed under following
`next`, and lies below `values_size`. -/
def map_chains_in (P : Nat → Prop) (as : map) : Prop :=
  (∀ k, k < MAP_HASH_MAX → P k) ∧
    ∀ k, P k → k < as.values_size ∧ ((as.values k).next ≠ SIZE_MAX → P (as.values k).next)

/-- The chains of a map stay inside the node table: there is a set of node indices that holds the
`MAP_HASH_MAX` bucket heads, is closed under following `next`, and lies below `values_size`. -/
def map_chains_ok (as : map) : Prop :=
  MAP_HASH_MAX ≤ as.values_size ∧ ∃ P : Nat → Prop, map_chains_in P as

/-- The maps obtained from a successful `map_create` by `map_add` calls that return, as long as
the node count stays in the lower half of the `size_t` range (below `2 ^ 63`). -/
inductive map_reachable (h : helpers) : map → Prop
  | create (junk : map) (values : Nat) : map_reachable h (map_create true true junk values)
  | add (realloc : Nat → Bool) (fuel : Nat) (as : map) (n : Nat) (key : Nat → Nat) (value : Int)
      (as' : map) (n' r : Nat) :
      map_reachable h as → as.values_size < 9223372036854775808 →
      map_add h realloc fuel as n key value = some (as', n', r) → map_reachable h as'

/-- What the call `map_add("ab", 1)` on `map_create(1)` returns: the map, the `realloc` count and
the index. -/
def sample_first : map × Nat × Nat :=
  (map_add (sample_helpers true) realloc_always 10 map_fresh 0 (c_string [97, 98]) 1).get
    (by decide)

/-- What the following call `map_add("ba", 2)` returns. -/
def sample_second : map × Nat × Nat :=
  (map_add (sample_helpers true) realloc_always 10 sample_first.1 sample_first.2.1
    (c_string [98, 97]) 2).get (by decide)

/-- The map `map_create(0)`: no spare node. -/
def map_fresh0 : map :=
  map_create true true map_junk 0

/-- The call `map_add(key1, v1)` followed, on the map it leaves, by `map_add(key2, v2)`, with the
sample helpers and a `realloc` that always succeeds. -/
def map_add_two (as : map) (key1 : Nat → Nat) (v1 : Int) (key2 : Nat → Nat) (v2 : Int) :
    Option (map × Nat × Nat) :=
  (map_add (sample_helpers true) realloc_always 10 as 0 key1 v1).bind
    fun x => map_add (sample_helpers true) realloc_always 10 x.1 x.2.1 key2 v2

/-! ## Bucket chains -/

/-- The chain that starts at node `k` runs through the nodes `rest`, in this order, and ends
there: every node is linked to the next one and the last node has `next = SIZE_MAX`. -/
def map_is_chain (as : map) : Nat → List Nat → Bool
  | k, [] => decide ((as.values k).next = SIZE_MAX)
  | k, k' :: rest =>
    decide ((as.values k).next = k') && decide (k' ≠ SIZE_MAX) && map_is_chain as k' rest

/-- What `map_get_hash("ba")` returns on the map left by `map_add("ab", 1)`: the map with the
bytes of the key behind `keys_size`, the `realloc` count and the bucket. -/
def sample_hash : map × Nat × Nat :=
  (map_get_hash (sample_helpers true) realloc_always 10 sample_first.1 sample_first.2.1
    (c_string [98, 97])).get (by decide)
/-! ## Theorems: vector.c -/

/-- In a vector whose block holds its items, `array[i]` for `i < size_alloc` is cell `i` of the
block: the byte offset does not wrap and the item lies inside the block. -/
theorem vector_holds_index (item_size : Nat) (vec : vector) (i : Nat)
    (hh : vector_holds item_size vec) (hi : i < vec.size_alloc) :
    vector_offset item_size i = i * item_size ∧ vector_cell item_size i = i ∧
      vector_in_block item_size vec i = true := by
  obtain ⟨hpos, _, _, hb, hM⟩ := hh
  have h1 : (i + 1) * item_size ≤ vec.size_alloc * item_size := Nat.mul_le_mul_right _ hi
  have h2 : (i + 1) * item_size = i * item_size + item_size := by ring
  have h3 : i * item_size < 18446744073709551616 := by omega
  have ho : vector_offset item_size i = i * item_size := Nat.mod_eq_of_lt h3
  refine ⟨ho, ?_, ?_⟩
  · unfold vector_cell
    rw [ho]
    exact Nat.mul_div_cancel _ hpos
  · unfold vector_in_block
    rw [ho]
    simp only [decide_eq_true_eq]
    omega

/-- In a vector whose block holds its items the capacity itself fits in `size_t`. -/
theorem vector_holds_alloc_lt (item_size : Nat) (vec : vector) (hh : vector_holds item_size vec) :
    vec.size_alloc < 18446744073709551616 := by
  obtain ⟨hpos, _, _, hb, hM⟩ := hh
  have : vec.size_alloc ≤ vec.size_alloc * item_size := Nat.le_mul_of_pos_right _ hpos
  omega

/-- Reading an item below the size of a vector whose block holds its items. -/
theorem vector_get_of_holds (ITEM_MAX : Int) (item_size : Nat) (vec : vector) (i : Nat)
    (hc : vector_is_correct vec = true) (hh : vector_holds item_size vec) (hi : i < vec.size) :
    vector_get ITEM_MAX item_size vec i = some (vec.array i) := by
  obtain ⟨_, hcell, hin⟩ := vector_holds_index item_size vec i hh (lt_of_lt_of_le hi hh.2.2.1)
  have hn : ¬ vec.size ≤ i := by omega
  simp [vector_get, hc, hn, hin, hcell]

/-- The item sequence of a vector whose block holds its items. -/
theorem vector_items_of_holds (item_size : Nat) (vec : vector)
    (hh : vector_holds item_size vec) :
    vector_items item_size vec = (List.range vec.size).map vec.array := by
  unfold vector_items
  apply List.map_congr_left
  intro i hi
  rw [(vector_holds_index item_size vec i hh
    (lt_of_lt_of_le (List.mem_range.mp hi) hh.2.2.1)).2.1]

/-- A vector made by `vector_create` holds its items when `malloc` succeeded and the byte count
`max(alloc, 1) * sizeof(item_t)` does not overflow `size_t`. -/
theorem vector_create_holds (item_size : Nat) (junk : Nat → Int) (alloc : Nat)
    (hpos : 0 < item_size)
    (hb : (if alloc ≠ 0 then alloc else 1) * item_size < 18446744073709551616) :
    vector_holds item_size (vector_create item_size true junk alloc) := by
  unfold vector_holds vector_create
  simp only [if_true, Nat.mod_eq_of_lt hb]
  refine ⟨hpos, ?_, Nat.zero_le _, le_refl _, hb⟩
  by_cases ha : alloc = 0
  · simp [ha]
  · simp only [ne_eq, ha, not_false_eq_true, if_true]
    omega

/-- The store of `vector_add` on a vector whose block holds its items and has a free cell. -/
theorem vector_add_store_holds (item_size : Nat) (v : vector) (x : Int)
    (hh : vector_holds item_size v) (hlt : v.size < v.size_alloc) :
    ∃ v', vector_add_store item_size v x = some (v', v.size) ∧
      v'.array_null = v.array_null ∧ v'.array = Function.update v.array v.size x ∧
      v'.size = v.size + 1 ∧ v'.size_alloc = v.size_alloc ∧ vector_holds item_size v' := by
  obtain ⟨_, hcell, hin⟩ := vector_holds_index item_size v v.size hh hlt
  have hA := vector_holds_alloc_lt item_size v hh
  have hs : (v.size + 1) % 18446744073709551616 = v.size + 1 := Nat.mod_eq_of_lt (by omega)
  refine ⟨{ v with array := Function.update v.array v.size x, size := v.size + 1 }, ?_, rfl,
    rfl, rfl, rfl, ?_⟩
  · unfold vector_add_store
    rw [hin, hcell, hs]
    rfl
  · obtain ⟨hpos, h0, _, hb, hM⟩ := hh
    exact ⟨hpos, h0, hlt, hb, hM⟩

/-- What a vector holds after `x` has been stored at index `size` and the size advanced. -/
theorem vector_append_view (ITEM_MAX : Int) (item_size : Nat) (vec vec' : vector) (x : Int)
    (hc : vector_is_correct vec = true) (hh : vector_holds item_size vec)
    (hnull : vec'.array_null = vec.array_null)
    (harr : vec'.array = Function.update vec.array vec.size x)
    (hsize : vec'.size = vec.size + 1) (hh' : vector_holds item_size vec') :
    vector_items item_size vec' = vector_items item_size vec ++ [x] ∧
    vector_get ITEM_MAX item_size vec' vec.size = some x ∧
    (∀ i, i < vec.size →
      vector_get ITEM_MAX item_size vec' i = vector_get ITEM_MAX item_size vec i) ∧
    vector_is_correct vec' = true := by
  have hc' : vector_is_correct vec' = true := by
    unfold vector_is_correct at hc ⊢
    rw [hnull]
    exact hc
  refine ⟨?_, ?_, ?_, hc'⟩
  · rw [vector_items_of_holds item_size vec' hh', vector_items_of_holds item_size vec hh, hsize,
      harr, List.range_succ, List.map_append, List.map_cons, List.map_nil, Function.update_same]
    congr 1
    apply List.map_congr_left
    intro i hi
    have : i ≠ vec.size := by
      have := List.mem_range.mp hi
      omega
    rw [Function.update_noteq this]
  · rw [vector_get_of_holds ITEM_MAX item_size vec' vec.size hc' hh' (by omega), harr,
      Function.update_same]
  · intro i hi
    have hne : i ≠ vec.size := by omega
    rw [vector_get_of_holds ITEM_MAX item_size vec' i hc' hh' (by omega),
      vector_get_of_holds ITEM_MAX item_size vec i hc hh hi, harr, Function.update_noteq hne]

/-- C8, counterexample. With items of 4 bytes, `vector_create(2 ^ 62 + 2)` (the byte count of
its `malloc` call wraps to 8) followed by `vector_increase(2 ^ 62 + 1)` gives a correct vector of
size `2 ^ 62 + 1` whose item 1 is 7. `vector_add(9)` needs no reallocation and returns
`2 ^ 62 + 1`, but the byte offset of `array[2 ^ 62 + 1]` wraps to 4: afterwards `vector_get(1)`
is 9, item 1 was not left unchanged. -/
theorem vector_add_aliases_item :
    (vector_increase 4 realloc_result.moved
      (vector_create 4 true (fun _ => 7) 4611686018427387906) 4611686018427387905).map
        (fun r => r.2) = some 0 ∧
    vector_is_correct (vector_wrapped 4611686018427387905) = true ∧
    (vector_wrapped 4611686018427387905).size = 4611686018427387905 ∧
    (vector_wrapped 4611686018427387905).size ≠ (vector_wrapped 4611686018427387905).size_alloc ∧
    vector_get 2147483647 4 (vector_wrapped 4611686018427387905) 1 = some 7 ∧
    (vector_add 4 realloc_result.moved (vector_wrapped 4611686018427387905) 9).map
      (fun r => (r.2, r.1.size, vector_get 2147483647 4 r.1 1))
        = some (4611686018427387905, 4611686018427387906, some 9) := by
  decide

/-- C8, amended. `vector_add` on a correct vector whose block holds its `size_alloc` items
(`1 ≤ size_alloc`, `size ≤ size_alloc`, and `size_alloc * sizeof(item_t)` does not overflow
`size_t` and is at most the byte size of the block), with a successful reallocation whose byte
count `2 * size_alloc * sizeof(item_t)` does not overflow `size_t` when one is needed, returns
the old size `n`; afterwards the vector holds the old items followed by `x`: its size is `n + 1`,
`vector_get(n)` is `x`, and `vector_get(i)` is unchanged for every `i < n`; the vector stays
correct and its block still holds its items. The statement covers the call that doubles the
capacity. -/
theorem vector_add_appends (ITEM_MAX : Int) (item_size : Nat) (realloc : realloc_result)
    (vec : vector) (x : Int)
    (hc : vector_is_correct vec = true) (hh : vector_holds item_size vec)
    (hr : vec.size = vec.size_alloc →
      realloc = realloc_result.moved ∧ 2 * vec.size_alloc * item_size < 2 ^ 64) :
    ∃ vec', vector_add item_size realloc vec x = some (vec', vec.size) ∧
      vec'.size = vec.size + 1 ∧
      vector_items item_size vec' = vector_items item_size vec ++ [x] ∧
      vector_get ITEM_MAX item_size vec' vec.size = some x ∧
      (∀ i, i < vec.size →
        vector_get ITEM_MAX item_size vec' i = vector_get ITEM_MAX item_size vec i) ∧
      vector_is_correct vec' = true ∧ vector_holds item_size vec' := by
  by_cases he : vec.size = vec.size_alloc
  · obtain ⟨hre, hb2⟩ := hr he
    have hb3 : 2 * vec.size_alloc * item_size < 18446744073709551616 := by
      norm_num at hb2
      exact hb2
    obtain ⟨hpos, h0, hsA, hb, hM⟩ := hh
    have h2A : vec.size_alloc * 2 ≤ 2 * vec.size_alloc * item_size := by
      have := Nat.le_mul_of_pos_right (2 * vec.size_alloc) hpos
      omega
    have hm1 : vec.size_alloc * 2 % 18446744073709551616 = vec.size_alloc * 2 :=
      Nat.mod_eq_of_lt (by omega)
    have hm2 : 2 * vec.size_alloc * item_size % 18446744073709551616
        = 2 * vec.size_alloc * item_size := Nat.mod_eq_of_lt hb3
    have hv : vector_holds item_size
        { vec with size_alloc := vec.size_alloc * 2
                   array_bytes := 2 * vec.size_alloc * item_size } := by
      refine ⟨hpos, ?_, ?_, ?_, hb3⟩
      · show 0 < vec.size_alloc * 2
        omega
      · show vec.size ≤ vec.size_alloc * 2
        omega
      · show vec.size_alloc * 2 * item_size ≤ 2 * vec.size_alloc * item_size
        rw [Nat.mul_comm vec.size_alloc 2]
    obtain ⟨v', hst, hnl, harr, hsz, _, hh'⟩ := vector_add_store_holds item_size _ x hv
      (show vec.size < vec.size_alloc * 2 by omega)
    have hadd : vector_add item_size realloc vec x = some (v', vec.size) := by
      unfold vector_add
      rw [hc, hre]
      simp only [Bool.not_true, Bool.false_eq_true, if_false]
      rw [if_pos he, hm1, hm2]
      exact hst
    obtain ⟨h1, h2, h3, h4⟩ := vector_append_view ITEM_MAX item_size vec v' x hc
      ⟨hpos, h0, hsA, hb, hM⟩ hnl harr hsz hh'
    exact ⟨v', hadd, hsz, h1, h2, h3, h4, hh'⟩
  · have hlt : vec.size < vec.size_alloc := lt_of_le_of_ne hh.2.2.1 he
    obtain ⟨v', hst, hnl, harr, hsz, _, hh'⟩ := vector_add_store_holds item_size vec x hh hlt
    have hadd : vector_add item_size realloc vec x = some (v', vec.size) := by
      unfold vector_add
      rw [hc]
      simp only [Bool.not_true, Bool.false_eq_true, if_false, he]
      exact hst
    obtain ⟨h1, h2, h3, h4⟩ := vector_append_view ITEM_MAX item_size vec v' x hc hh hnl harr hsz
      hh'
    exact ⟨v', hadd, hsz, h1, h2, h3, h4, hh'⟩

/-- Witness of `vector_add_appends`: the full vector `5, 6` of capacity `2`, items of 4 bytes;
the call doubles the capacity. -/
theorem vector_add_appends_witness :
    (vector_is_correct vector_full = true ∧ vector_holds 4 vector_full ∧
      vector_full.size = vector_full.size_alloc) ∧
    ∃ vec', vector_add 4 realloc_result.moved vector_full 9 = some (vec', vector_full.size) ∧
      vec'.size = vector_full.size + 1 ∧
      vector_items 4 vec' = vector_items 4 vector_full ++ [9] ∧
      vector_get 2147483647 4 vec' vector_full.size = some 9 ∧
      (∀ i, i < vector_full.size →
        vector_get 2147483647 4 vec' i = vector_get 2147483647 4 vector_full i) ∧
      vector_is_correct vec' = true ∧ vector_holds 4 vec' :=
  ⟨⟨by decide, by unfold vector_holds; decide, by decide⟩,
    vector_add_appends 2147483647 4 realloc_result.moved vector_full 9 (by decide)
      (by unfold vector_holds; decide) (fun _ => ⟨rfl, by decide⟩)⟩

/-- C10, counterexample. On the correct vector `5, 6` of capacity 2 with items of 4 bytes,
`vector_increase(2 ^ 62 - 2)` needs more capacity and asks `realloc` for `2 ^ 62 * 4` bytes, which
is 0 in `size_t`. A `realloc` that releases the block on a request of 0 bytes and returns `NULL`
makes the call return `-1`, but the vector is not what it was: `vector_get(0)` was 5 before and
reads released memory afterwards. -/
theorem vector_increase_releases_block :
    vector_is_correct vector_full = true ∧
    (vector_full.size + 4611686018427387902) % 2 ^ 64 > vector_full.size_alloc ∧
    vector_alloc_new vector_full 4611686018427387902 * 4 % 2 ^ 64 = 0 ∧
    vector_get 2147483647 4 vector_full 0 = some 5 ∧
    (vector_increase 4 realloc_result.released vector_full 4611686018427387902).map
      (fun r => (r.2, r.1.size, r.1.size_alloc, r.1.array_bytes, vector_get 2147483647 4 r.1 0))
        = some (-1, 2, 2, 0, none) := by
  decide

/-- C10, amended. Whenever `vector_add` or `vector_increase` needs more capacity and the
reallocation fails leaving the old block allocated (as it does on every request whose byte count,
computed in `size_t`, is not 0), `vector_add` returns `SIZE_MAX`, `vector_increase` returns `-1`,
and the vector after the call is the vector before it: same block, same content, same size, same
capacity. -/
theorem vector_growth_failure_atomic (item_size : Nat) (realloc : realloc_result) (vec : vector)
    (n : Nat) (x : Int) (hc : vector_is_correct vec = true)
    (hf : realloc ≠ realloc_result.moved) :
    (vec.size = vec.size_alloc →
      (realloc = realloc_result.released → 2 * vec.size_alloc * item_size % 2 ^ 64 ≠ 0) →
      vector_add item_size realloc vec x = some (vec, SIZE_MAX)) ∧
    ((vec.size + n) % 2 ^ 64 > vec.size_alloc →
      (realloc = realloc_result.released →
        vector_alloc_new vec n * item_size % 2 ^ 64 ≠ 0) →
      vector_increase item_size realloc vec n = some (vec, -1)) := by
  constructor
  · intro he hz
    unfold vector_add
    rw [hc]
    simp only [Bool.not_true, Bool.false_eq_true, if_false]
    rw [if_pos he]
    cases realloc with
    | moved => exact absurd rfl hf
    | failed => rfl
    | released =>
      have hz1 : ¬ 2 * vec.size_alloc * item_size % 18446744073709551616 = 0 := by
        have := hz rfl
        norm_num at this
        exact this
      simp only
      rw [if_neg hz1]
  · intro hg hz
    have hg1 : (vec.size + n) % 18446744073709551616 > vec.size_alloc := by
      norm_num at hg
      exact hg
    unfold vector_increase
    rw [hc]
    simp only [Bool.not_true, Bool.false_eq_true, if_false]
    rw [if_pos hg1]
    cases realloc with
    | moved => exact absurd rfl hf
    | failed => rfl
    | released =>
      have hz1 : ¬ vector_alloc_new vec n * item_size % 18446744073709551616 = 0 := by
        have := hz rfl
        norm_num at this
        exact this
      simp only
      rw [if_neg hz1]

/-- Witness of `vector_growth_failure_atomic`: the full vector `5, 6` with items of 4 bytes, one
item added, three items requested, the reallocation failing (on a request of 16 or 20 bytes). -/
theorem vector_growth_failure_atomic_witness :
    (vector_is_correct vector_full = true ∧ vector_full.size = vector_full.size_alloc ∧
      (vector_full.size + 3) % 2 ^ 64 > vector_full.size_alloc) ∧
    vector_add 4 realloc_result.failed vector_full 9 = some (vector_full, SIZE_MAX) ∧
    vector_increase 4 realloc_result.failed vector_full 3 = some (vector_full, -1) ∧
    vector_increase 4 realloc_result.released vector_full 3 = some (vector_full, -1) :=
  ⟨⟨by decide, by decide, by decide⟩,
    (vector_growth_failure_atomic 4 realloc_result.failed vector_full 3 9 (by decide)
      (by decide)).1 (by decide) (fun h => absurd h (by decide)),
    (vector_growth_failure_atomic 4 realloc_result.failed vector_full 3 9 (by decide)
      (by decide)).2 (by decide) (fun h => absurd h (by decide)),
    (vector_growth_failure_atomic 4 realloc_result.released vector_full 3 9 (by decide)
      (by decide)).2 (by decide) (fun _ => by decide)⟩

/-- C16, counterexample. With items of 4 bytes, `vector_create(2 ^ 62 + 2)` (the byte count of
its `malloc` call wraps to 8) followed by `vector_increase(2 ^ 62 + 2)` gives a correct vector of
size `2 ^ 62 + 2` whose item 1 is 0. `vector_set(2 ^ 62 + 1, 9)` returns `0`, but the byte offset
of `array[2 ^ 62 + 1]` wraps to 4: afterwards `vector_get(1)` is 9, an item at an index other
than `2 ^ 62 + 1` has changed. -/
theorem vector_set_aliases_item :
    (vector_increase 4 realloc_result.moved
      (vector_create 4 true (fun _ => 7) 4611686018427387906) 4611686018427387906).map
        (fun r => r.2) = some 0 ∧
    vector_is_correct (vector_wrapped 4611686018427387906) = true ∧
    (vector_wrapped 4611686018427387906).size = 4611686018427387906 ∧
    vector_get 2147483647 4 (vector_wrapped 4611686018427387906) 1 = some 0 ∧
    (vector_set 4 (vector_wrapped 4611686018427387906) 4611686018427387905 9).map
      (fun r => (r.2, r.1.size, vector_get 2147483647 4 r.1 1))
        = some (0, 4611686018427387906, some 9) := by
  decide

/-- C16, amended. On a correct vector whose block holds its `size_alloc` items (`1 ≤ size_alloc`,
`size ≤ size_alloc`, and `size_alloc * sizeof(item_t)` does not overflow `size_t` and is at most
the byte size of the block), `vector_set(i, x)` returns, and it returns `0` exactly when
`i < size`. On success `vector_get(i)` is `x` afterwards, the size is unchanged and so is every
item at an index `j ≠ i`; the vector stays correct and its block still holds its items. On
failure (`i ≥ size`) it returns `-1`, the vector is unchanged, and `vector_get(i)` returns
`ITEM_MAX`. -/
theorem vector_set_point_update (ITEM_MAX : Int) (item_size : Nat) (vec : vector) (i : Nat)
    (x : Int) (hc : vector_is_correct vec = true) (hh : vector_holds item_size vec) :
    (∃ r, vector_set item_size vec i x = some r ∧ (r.2 = 0 ↔ i < vec.size)) ∧
    (i < vec.size →
      ∃ vec', vector_set item_size vec i x = some (vec', 0) ∧
        vector_get ITEM_MAX item_size vec' i = some x ∧
        vec'.size = vec.size ∧ vec'.size_alloc = vec.size_alloc ∧
        vector_is_correct vec' = true ∧ vector_holds item_size vec' ∧
        ∀ j, j ≠ i → vec'.array j = vec.array j ∧
          vector_get ITEM_MAX item_size vec' j = vector_get ITEM_MAX item_size vec j) ∧
    (vec.size ≤ i →
      vector_set item_size vec i x = some (vec, -1) ∧
      vector_get ITEM_MAX item_size vec i = some ITEM_MAX) := by
  have hnull : vec.array_null = false := by
    simpa [vector_is_correct] using hc
  have hfail : vec.size ≤ i → vector_set item_size vec i x = some (vec, -1) ∧
      vector_get ITEM_MAX item_size vec i = some ITEM_MAX := by
    intro hi
    constructor
    · simp [vector_set, hi]
    · simp [vector_get, hi]
  have hok : i < vec.size →
      ∃ vec', vector_set item_size vec i x = some (vec', 0) ∧
        vector_get ITEM_MAX item_size vec' i = some x ∧
        vec'.size = vec.size ∧ vec'.size_alloc = vec.size_alloc ∧
        vector_is_correct vec' = true ∧ vector_holds item_size vec' ∧
        ∀ j, j ≠ i → vec'.array j = vec.array j ∧
          vector_get ITEM_MAX item_size vec' j = vector_get ITEM_MAX item_size vec j := by
    intro hi
    have hn : ¬ vec.size ≤ i := by omega
    obtain ⟨_, hcell, hin⟩ := vector_holds_index item_size vec i hh (lt_of_lt_of_le hi hh.2.2.1)
    have hc' : vector_is_correct { vec with array := Function.update vec.array i x } = true := hc
    have hh' : vector_holds item_size { vec with array := Function.update vec.array i x } := hh
    refine ⟨{ vec with array := Function.update vec.array i x }, ?_, ?_, rfl, rfl, hc', hh', ?_⟩
    · unfold vector_set
      simp only [hc, Bool.not_true, Bool.false_or, decide_eq_true_eq, ge_iff_le, hn, if_false,
        hin, if_true, hcell]
    · rw [vector_get_of_holds ITEM_MAX item_size _ i hc' hh' hi]
      simp only [Function.update_same]
    · intro j hj
      refine ⟨Function.update_noteq hj _ _, ?_⟩
      by_cases hjs : vec.size ≤ j
      · simp [vector_get, hjs]
      · have hjl : j < vec.size := by omega
        rw [vector_get_of_holds ITEM_MAX item_size _ j hc' hh' hjl,
          vector_get_of_holds ITEM_MAX item_size vec j hc hh hjl]
        simp only [Function.update_noteq hj]
  refine ⟨?_, hok, hfail⟩
  by_cases hi : i < vec.size
  · obtain ⟨vec', h1, _⟩ := hok hi
    exact ⟨(vec', 0), h1, by simp [hi]⟩
  · have hle : vec.size ≤ i := by omega
    exact ⟨(vec, -1), (hfail hle).1, by simp [hi]⟩

/-- Witness of `vector_set_point_update`: the vector `5, 6` with items of 4 bytes, index 1. -/
theorem vector_set_point_update_witness :
    (vector_is_correct vector_full = true ∧ vector_holds 4 vector_full ∧ 1 < vector_full.size) ∧
    ∃ vec', vector_set 4 vector_full 1 9 = some (vec', 0) ∧
      vector_get 2147483647 4 vec' 1 = some 9 ∧
      vec'.size = vector_full.size ∧ vec'.size_alloc = vector_full.size_alloc ∧
      vector_is_correct vec' = true ∧ vector_holds 4 vec' ∧
      ∀ j, j ≠ 1 → vec'.array j = vector_full.array j ∧
        vector_get 2147483647 4 vec' j = vector_get 2147483647 4 vector_full j :=
  ⟨⟨by decide, by unfold vector_holds; decide, by decide⟩,
    (vector_set_point_update 2147483647 4 vector_full 1 9 (by decide)
      (by unfold vector_holds; decide)).2.1 (by decide)⟩

/-- C17, counterexample. With items of 4 bytes, `vector_increase(2 ^ 62 + 1)` on the correct
vector `vector_create(1)` (size 0, the sum does not overflow) asks `realloc` for
`(2 ^ 62 + 1) * 4` bytes, that is 4 in `size_t`, returns `0` and sets the size to `2 ^ 62 + 1`,
but `memset` gets the same byte count 4: only item 0 is cleared, and `vector_get(1)` reads
outside the block of 4 bytes instead of giving 0. On the vector `5, 6` the call
`vector_increase(2 ^ 62 - 1)` (the sum does not overflow either) shrinks the block to 4 bytes and
its `memset` then runs past the end of it. -/
theorem vector_increase_byte_count_wraps :
    vector_is_correct vector_one = true ∧ vector_one.size = 0 ∧
    vector_one.size + 4611686018427387905 < 2 ^ 64 ∧
    (vector_increase 4 realloc_result.moved vector_one 4611686018427387905).map
      (fun r => (r.2, r.1.size, r.1.array_bytes, vector_get 2147483647 4 r.1 0,
        vector_get 2147483647 4 r.1 1)) = some (0, 4611686018427387905, 4, some 0, none) ∧
    vector_is_correct vector_full = true ∧
    vector_full.size + 4611686018427387903 < 2 ^ 64 ∧
    (vector_increase 4 realloc_result.moved vector_full 4611686018427387903).isSome = false := by
  decide

/-- The `memset` of `vector_increase` when no byte count wraps: the cells `size .. size + n - 1`
are cleared, the others kept. -/
theorem vector_memset_of_lt (item_size : Nat) (v : vector) (n : Nat) (hpos : 0 < item_size)
    (hb : (v.size + n) * item_size < 18446744073709551616) :
    vector_memset item_size v n =
      fun k => if v.size ≤ k ∧ k < v.size + n then 0 else v.array k := by
  have hadd : (v.size + n) * item_size = v.size * item_size + n * item_size := Nat.add_mul _ _ _
  have ho : vector_offset item_size v.size = v.size * item_size :=
    Nat.mod_eq_of_lt (by omega)
  have hn : n * item_size % 18446744073709551616 = n * item_size :=
    Nat.mod_eq_of_lt (by omega)
  funext k
  unfold vector_memset
  rw [ho, hn, ← hadd]
  have h1 : v.size * item_size ≤ k * item_size ↔ v.size ≤ k :=
    ⟨fun h => Nat.le_of_mul_le_mul_right h hpos, fun h => Nat.mul_le_mul_right _ h⟩
  have h2 : (k + 1) * item_size ≤ (v.size + n) * item_size ↔ k < v.size + n :=
    ⟨fun h => Nat.le_of_mul_le_mul_right h hpos, fun h => Nat.mul_le_mul_right _ h⟩
  simp only [h1, h2]

/-- The `memset` step of `vector_increase` on a vector whose block holds its items and has room
for `n` more. -/
theorem vector_increase_fill_holds (item_size : Nat) (v : vector) (n : Nat)
    (hh : vector_holds item_size v) (hfit : v.size + n ≤ v.size_alloc) :
    ∃ v', vector_increase_fill item_size v n = some (v', 0) ∧
      v'.array_null = v.array_null ∧
      v'.array = (fun k => if v.size ≤ k ∧ k < v.size + n then 0 else v.array k) ∧
      v'.size = v.size + n ∧ v'.size_alloc = v.size_alloc ∧ vector_holds item_size v' := by
  obtain ⟨hpos, h0, hsA, hb, hM⟩ := hh
  have hle : (v.size + n) * item_size ≤ v.size_alloc * item_size := Nat.mul_le_mul_right _ hfit
  have hb1 : (v.size + n) * item_size < 18446744073709551616 := by omega
  have hadd : (v.size + n) * item_size = v.size * item_size + n * item_size := Nat.add_mul _ _ _
  have ho : vector_offset item_size v.size = v.size * item_size :=
    Nat.mod_eq_of_lt (by omega)
  have hn : n * item_size % 18446744073709551616 = n * item_size :=
    Nat.mod_eq_of_lt (by omega)
  have hA : v.size_alloc ≤ v.size_alloc * item_size := Nat.le_mul_of_pos_right _ hpos
  have hs : (v.size + n) % 18446744073709551616 = v.size + n := Nat.mod_eq_of_lt (by omega)
  refine ⟨{ v with array := fun k => if v.size ≤ k ∧ k < v.size + n then 0 else v.array k
                   size := v.size + n }, ?_, rfl, rfl, rfl, rfl, ⟨hpos, h0, hfit, hb, hM⟩⟩
  unfold vector_increase_fill
  rw [vector_memset_of_lt item_size v n hpos hb1, ho, hn, hs]
  rw [if_pos (Or.inr (by omega))]

/-- What a vector holds after the cells `size .. size + n - 1` have been cleared and the size
advanced by `n`. -/
theorem vector_fill_view (ITEM_MAX : Int) (item_size : Nat) (vec vec' : vector) (n : Nat)
    (hc : vector_is_correct vec = true) (hh : vector_holds item_size vec)
    (hnull : vec'.array_null = vec.array_null)
    (harr : vec'.array = fun k => if vec.size ≤ k ∧ k < vec.size + n then 0 else vec.array k)
    (hsize : vec'.size = vec.size + n) (hh' : vector_holds item_size vec') :
    (∀ i, vec.size ≤ i → i < vec.size + n →
      vector_get ITEM_MAX item_size vec' i = some 0) ∧
    (∀ i, i < vec.size →
      vector_get ITEM_MAX item_size vec' i = vector_get ITEM_MAX item_size vec i) ∧
    vector_is_correct vec' = true := by
  have hc' : vector_is_correct vec' = true := by
    unfold vector_is_correct at hc ⊢
    rw [hnull]
    exact hc
  refine ⟨?_, ?_, hc'⟩
  · intro i h1 h2
    rw [vector_get_of_holds ITEM_MAX item_size vec' i hc' hh' (by omega), harr]
    simp only [h1, h2, and_self, if_true]
  · intro i h1
    have h3 : ¬ vec.size ≤ i := by omega
    rw [vector_get_of_holds ITEM_MAX item_size vec' i hc' hh' (by omega),
      vector_get_of_holds ITEM_MAX item_size vec i hc hh h1, harr]
    simp only [h3, false_and, if_false]

/-- C17, amended. For every correct vector of size `s` whose block holds its `size_alloc` items
(`1 ≤ size_alloc`, `s ≤ size_alloc`, and `size_alloc * sizeof(item_t)` does not overflow `size_t`
and is at most the byte size of the block) and every `n` such that the byte count
`(s + n) * sizeof(item_t)` does not overflow `size_t`, when the reallocation (if needed) succeeds
and `2 * size_alloc` taken in `size_t`, times `sizeof(item_t)`, does not overflow either,
`vector_increase(n)` returns `0`, the size becomes `s + n`, `vector_get(i)` is `0` for every
`s ≤ i < s + n`, every item at an index below `s` is unchanged, and the new capacity is the old
one if `s + n` fits in it and otherwise `max(s + n, 2 * size_alloc)`, the product taken in
`size_t`; the vector stays correct and its block still holds its items. -/
theorem vector_increase_extends_by_zeros (ITEM_MAX : Int) (item_size : Nat)
    (realloc : realloc_result) (vec : vector) (n : Nat)
    (hc : vector_is_correct vec = true) (hh : vector_holds item_size vec)
    (hsum : (vec.size + n) * item_size < 2 ^ 64)
    (hre : vec.size + n > vec.size_alloc →
      realloc = realloc_result.moved ∧ 2 * vec.size_alloc % 2 ^ 64 * item_size < 2 ^ 64) :
    ∃ vec', vector_increase item_size realloc vec n = some (vec', 0) ∧
      vec'.size = vec.size + n ∧
      (∀ i, vec.size ≤ i → i < vec.size + n →
        vector_get ITEM_MAX item_size vec' i = some 0) ∧
      (∀ i, i < vec.size →
        vector_get ITEM_MAX item_size vec' i = vector_get ITEM_MAX item_size vec i) ∧
      vec'.size_alloc =
        (if vec.size + n ≤ vec.size_alloc then vec.size_alloc
         else max (vec.size + n) (2 * vec.size_alloc % 2 ^ 64)) ∧
      vector_is_correct vec' = true ∧ vector_holds item_size vec' := by
  have h264 : (2 : Nat) ^ 64 = 18446744073709551616 := by norm_num
  rw [h264] at hsum hre ⊢
  obtain ⟨hpos, h0, hsA, hb, hM⟩ := hh
  have hh : vector_holds item_size vec := ⟨hpos, h0, hsA, hb, hM⟩
  have hsn : vec.size + n ≤ (vec.size + n) * item_size := Nat.le_mul_of_pos_right _ hpos
  have hs1 : (vec.size + n) % 18446744073709551616 = vec.size + n :=
    Nat.mod_eq_of_lt (by omega)
  by_cases hg : vec.size + n > vec.size_alloc
  · obtain ⟨hmv, h2A⟩ := hre hg
    have hle : ¬ vec.size + n ≤ vec.size_alloc := by omega
    have hnew : vector_alloc_new vec n
        = max (vec.size + n) (2 * vec.size_alloc % 18446744073709551616) := by
      unfold vector_alloc_new
      rw [hs1]
      split_ifs <;> omega
    have hnb : vector_alloc_new vec n * item_size < 18446744073709551616 := by
      rw [hnew]
      rcases le_total (vec.size + n) (2 * vec.size_alloc % 18446744073709551616) with h | h
      · rw [max_eq_right h]
        exact h2A
      · rw [max_eq_left h]
        exact hsum
    have hfit : vec.size + n ≤ vector_alloc_new vec n := by
      rw [hnew]
      exact le_max_left _ _
    have hv : vector_holds item_size
        { vec with size_alloc := vector_alloc_new vec n
                   array_bytes := vector_alloc_new vec n * item_size } := by
      refine ⟨hpos, ?_, ?_, le_refl _, hnb⟩
      · show 0 < vector_alloc_new vec n
        omega
      · show vec.size ≤ vector_alloc_new vec n
        omega
    obtain ⟨v', hfill, hnl, harr, hsz, hal, hh'⟩ :=
      vector_increase_fill_holds item_size _ n hv hfit
    have hinc : vector_increase item_size realloc vec n = some (v', 0) := by
      unfold vector_increase
      rw [hc, hmv, hs1]
      simp only [Bool.not_true, Bool.false_eq_true, if_false]
      rw [if_pos hg, Nat.mod_eq_of_lt hnb]
      exact hfill
    obtain ⟨g1, g2, g3⟩ := vector_fill_view ITEM_MAX item_size vec v' n hc hh hnl harr hsz hh'
    refine ⟨v', hinc, hsz, g1, g2, ?_, g3, hh'⟩
    rw [if_neg hle, hal]
    exact hnew
  · have hle : vec.size + n ≤ vec.size_alloc := by omega
    obtain ⟨v', hfill, hnl, harr, hsz, hal, hh'⟩ :=
      vector_increase_fill_holds item_size vec n hh hle
    have hinc : vector_increase item_size realloc vec n = some (v', 0) := by
      unfold vector_increase
      rw [hc, hs1]
      simp only [Bool.not_true, Bool.false_eq_true, if_false]
      rw [if_neg hg]
      exact hfill
    obtain ⟨g1, g2, g3⟩ := vector_fill_view ITEM_MAX item_size vec v' n hc hh hnl harr hsz hh'
    refine ⟨v', hinc, hsz, g1, g2, ?_, g3, hh'⟩
    rw [if_pos hle, hal]

/-- Witness of `vector_increase_extends_by_zeros`: the full vector `5, 6` of capacity 2, three
items of 4 bytes requested; the call enlarges the block. -/
theorem vector_increase_extends_by_zeros_witness :
    (vector_is_correct vector_full = true ∧ vector_holds 4 vector_full ∧
      (vector_full.size + 3) * 4 < 2 ^ 64 ∧ vector_full.size + 3 > vector_full.size_alloc ∧
      2 * vector_full.size_alloc % 2 ^ 64 * 4 < 2 ^ 64) ∧
    ∃ vec', vector_increase 4 realloc_result.moved vector_full 3 = some (vec', 0) ∧
      vec'.size = vector_full.size + 3 ∧
      (∀ i, vector_full.size ≤ i → i < vector_full.size + 3 →
        vector_get 2147483647 4 vec' i = some 0) ∧
      (∀ i, i < vector_full.size →
        vector_get 2147483647 4 vec' i = vector_get 2147483647 4 vector_full i) ∧
      vec'.size_alloc =
        (if vector_full.size + 3 ≤ vector_full.size_alloc then vector_full.size_alloc
         else max (vector_full.size + 3) (2 * vector_full.size_alloc % 2 ^ 64)) ∧
      vector_is_correct vec' = true ∧ vector_holds 4 vec' :=
  ⟨⟨by decide, by unfold vector_holds; decide, by decide, by decide, by decide⟩,
    vector_increase_extends_by_zeros 2147483647 4 realloc_result.moved vector_full 3 (by decide)
      (by unfold vector_holds; decide) (by decide) (fun _ => ⟨rfl, by decide⟩)⟩
/-! ## Theorems: map.c -/

/-- C1, the code at the failing input. On `map_create(1)` the first `map_add("a", 3)` returns the
bucket `97`; the second `map_add("a", 3)` does not find it (the loop of `map_add_by_hash` never
compares the last node of a chain) and returns the new node `256`. -/
theorem map_add_same_spelling_twice :
    result_of (map_add (sample_helpers true) realloc_always 10 map_fresh 0 (c_string [97]) 3)
      = some 97 ∧
    result_of ((map_add (sample_helpers true) realloc_always 10 map_fresh 0 (c_string [97]) 3).bind
      (fun x => map_add (sample_helpers true) realloc_always 10 x.1 x.2.1 (c_string [97]) 3))
      = some 256 := by
  decide

/-- C3, the code at the failing input. The key `D1 8F` is the letter U+044F; its code point is
`1103` and `1103 % 256 = 79`, but `map_get_hash` returns `SIZE_MAX`: `map_add_key_symbol` takes
the code point as a `char`, stores the single byte `4F`, and the scan resumes in the middle of
the character. The key block of `map_create(1)` has room for the key. -/
theorem map_get_hash_non_ascii_letter :
    sample_convert (c_string [209, 143]) = 1103 ∧ sample_is_letter 1103 = true ∧
    1103 % MAP_HASH_MAX = 79 ∧
    (∀ char_signed : Bool,
      result_of (map_get_hash (sample_helpers char_signed) realloc_always 10 map_fresh 0
        (c_string [209, 143])) = some SIZE_MAX) := by
  decide

/-- C4, the code at the failing input. On a target whose `char` is unsigned, `map_add` of the key
`CE B1` (the letter U+03B1) inserts a new entry at index `177` with `ref = 0`, but the bytes
stored at offset `0` are `C2 B1 00`, not the bytes of the key. -/
theorem map_add_stores_other_bytes :
    sample_convert (c_string [206, 177]) = 945 ∧ sample_is_letter 945 = true ∧
    (map_add (sample_helpers false) realloc_always 10 map_fresh 0 (c_string [206, 177]) 3).map
      (fun x => (x.2.2, (x.1.values x.2.2).ref, (x.1.values x.2.2).value,
        [x.1.keys 0, x.1.keys 1, x.1.keys 2], x.1.keys_size))
      = some (177, 0, 3, [194, 177, 0], 3) := by
  decide

/-- C7, the code at the failing input. For the identifier U+044F (bytes `D1 8F`) `map_add`
returns `SIZE_MAX` and inserts nothing, while `map_add_by_io` on the input U+044F `;` of the same
map returns the bucket `79` and inserts an entry. -/
theorem map_add_and_map_add_by_io_disagree :
    sample_is_letter 1103 = true ∧ sample_is_letter 59 = false ∧ sample_is_digit 59 = false ∧
    (map_add (sample_helpers true) realloc_always 10 map_fresh 0 (c_string [209, 143]) 3).map
      (fun x => (x.2.2, (x.1.values 79).ref, x.1.keys_size)) = some (SIZE_MAX, SIZE_MAX, 0) ∧
    (map_add_by_io (sample_helpers true) realloc_always 10 map_fresh 0
      { chars := [1103, 59], correct := true } 3 0).map
      (fun x => (x.2.2.2.2, (x.1.values 79).ref, x.1.keys_size, x.2.2.2.1)) = some (79, 0, 2, 59) := by
  decide

theorem map_add_key_symbol_frame (h : helpers) (realloc : Nat → Bool) (fuel : Nat) :
    ∀ (as : map) (n ch : Nat) (as1 : map) (n1 : Nat) (r : Int),
      map_add_key_symbol h realloc fuel as n ch = some (as1, n1, r) →
      as1.values = as.values ∧ as1.values_size = as.values_size ∧
      as1.values_alloc = as.values_alloc ∧ as1.values_null = as.values_null ∧
      as1.keys_null = as.keys_null ∧ as1.keys_alloc = as.keys_alloc ∧
      (h.MAX_SYMBOL_SIZE ≤ (as.keys_alloc + 18446744073709551616 - as.keys_next) % 18446744073709551616 →
        r = 0 ∧ as1.keys_size = as.keys_size) ∧
      (¬ h.MAX_SYMBOL_SIZE ≤ (as.keys_alloc + 18446744073709551616 - as.keys_next) % 18446744073709551616 →
        r = -1 ∧ as1.keys = as.keys ∧ as1.keys_next = as.keys_next) := by
  induction fuel with
  | zero =>
    intro as n ch as1 n1 r hret
    simp [map_add_key_symbol] at hret
  | succ fuel ih =>
    intro as n ch as1 n1 r hret
    unfold map_add_key_symbol at hret
    by_cases hroom : h.MAX_SYMBOL_SIZE ≤ (as.keys_alloc + 18446744073709551616 - as.keys_next) % 18446744073709551616
    · rw [if_pos hroom] at hret
      simp only [Option.some.injEq, Prod.mk.injEq] at hret
      obtain ⟨rfl, -, rfl⟩ := hret
      exact ⟨rfl, rfl, rfl, rfl, rfl, rfl, fun _ => ⟨rfl, rfl⟩, fun hn => absurd hroom hn⟩
    · rw [if_neg hroom] at hret
      by_cases hre : realloc n = true
      · simp only [hre, Bool.not_true, Bool.false_eq_true, if_false] at hret
        obtain ⟨h1, h2, h3, h4, h5, h6, -, h8⟩ := ih _ _ _ _ _ _ hret
        obtain ⟨h9, h10, h11⟩ := h8 hroom
        exact ⟨h1, h2, h3, h4, h5, h6, fun hp => absurd hp hroom, fun _ => ⟨h9, h10, h11⟩⟩
      · have hre' : realloc n = false := by simpa using hre
        simp only [hre', Bool.not_false, if_true, Option.some.injEq, Prod.mk.injEq] at hret
        obtain ⟨rfl, -, rfl⟩ := hret
        exact ⟨rfl, rfl, rfl, rfl, rfl, rfl, fun hp => absurd hp hroom,
          fun _ => ⟨rfl, rfl, rfl⟩⟩

theorem map_add_key_symbol_zero (h : helpers) (realloc : Nat → Bool) (fuel : Nat)
    (as : map) (n ch : Nat) (as1 : map) (n1 : Nat)
    (hret : map_add_key_symbol h realloc fuel as n ch = some (as1, n1, 0)) :
    as1.keys_size = as.keys_size := by
  obtain ⟨-, -, -, -, -, -, h7, h8⟩ := map_add_key_symbol_frame h realloc fuel _ _ _ _ _ _ hret
  by_cases hroom : h.MAX_SYMBOL_SIZE ≤ (as.keys_alloc + 18446744073709551616 - as.keys_next) % 18446744073709551616
  · exact (h7 hroom).2
  · have := (h8 hroom).1
    omega

theorem map_get_hash_loop_frame (h : helpers) (realloc : Nat → Bool) (key : Nat → Nat)
    (fuel : Nat) :
    ∀ (as : map) (n hash : Nat) (as1 : map) (n1 r : Nat),
      map_get_hash_loop h realloc key fuel as n hash = some (as1, n1, r) →
      as1.values = as.values ∧ as1.values_size = as.values_size ∧
      as1.values_alloc = as.values_alloc ∧ as1.values_null = as.values_null ∧
      as1.keys_null = as.keys_null ∧ as1.keys_alloc = as.keys_alloc ∧
      (r ≠ SIZE_MAX → as1.keys_size = as.keys_size) := by
  induction fuel with
  | zero =>
    intro as n hash as1 n1 r hret
    simp [map_get_hash_loop] at hret
  | succ fuel ih =>
    intro as n hash as1 n1 r hret
    unfold map_get_hash_loop at hret
    simp only at hret
    split_ifs at hret with h0 hbad
    · simp only [Option.some.injEq, Prod.mk.injEq] at hret
      obtain ⟨rfl, -, -⟩ := hret
      exact ⟨rfl, rfl, rfl, rfl, rfl, rfl, fun _ => rfl⟩
    · simp only [Option.some.injEq, Prod.mk.injEq] at hret
      obtain ⟨rfl, -, rfl⟩ := hret
      exact ⟨rfl, rfl, rfl, rfl, rfl, rfl, fun hne => absurd rfl hne⟩
    · cases hsym : map_add_key_symbol h realloc fuel as n
          (h.utf8_convert fun i => key ((as.keys_next + 18446744073709551616 - as.keys_size) % 18446744073709551616 + i)) with
      | none => simp [hsym] at hret
      | some res =>
        obtain ⟨as2, n2, r2⟩ := res
        simp only [hsym] at hret
        obtain ⟨g1, g2, g3, g4, g5, g6, -, -⟩ :=
          map_add_key_symbol_frame h realloc fuel _ _ _ _ _ _ hsym
        by_cases hr2 : r2 = 0
        · subst hr2
          simp only [ne_eq, not_true_eq_false, if_false] at hret
          obtain ⟨e1, e2, e3, e4, e5, e6, e7⟩ := ih _ _ _ _ _ _ hret
          have hk := map_add_key_symbol_zero h realloc fuel _ _ _ _ _ hsym
          exact ⟨e1.trans g1, e2.trans g2, e3.trans g3, e4.trans g4, e5.trans g5, e6.trans g6,
            fun hne => (e7 hne).trans hk⟩
        · simp only [ne_eq, hr2, not_false_eq_true, if_true, Option.some.injEq,
            Prod.mk.injEq] at hret
          obtain ⟨rfl, -, rfl⟩ := hret
          exact ⟨g1, g2, g3, g4, g5, g6, fun hne => absurd rfl hne⟩

theorem map_get_hash_frame (h : helpers) (realloc : Nat → Bool) (fuel : Nat) (as : map)
    (n : Nat) (key : Nat → Nat) (as1 : map) (n1 r : Nat)
    (hret : map_get_hash h realloc fuel as n key = some (as1, n1, r)) :
    as1.values = as.values ∧ as1.values_size = as.values_size ∧
    as1.values_alloc = as.values_alloc ∧ as1.values_null = as.values_null ∧
    as1.keys_null = as.keys_null ∧ as1.keys_alloc = as.keys_alloc ∧
    (r ≠ SIZE_MAX → as1.keys_size = as.keys_size) := by
  unfold map_get_hash at hret
  simp only at hret
  split_ifs at hret with hl
  · simp only [Option.some.injEq, Prod.mk.injEq] at hret
    obtain ⟨rfl, -, rfl⟩ := hret
    exact ⟨rfl, rfl, rfl, rfl, rfl, rfl, fun hne => absurd rfl hne⟩
  · cases hsym : map_add_key_symbol h realloc fuel { as with keys_next := as.keys_size } n
        (h.utf8_convert key) with
    | none => simp [hsym] at hret
    | some res =>
      obtain ⟨as2, n2, r2⟩ := res
      simp only [hsym] at hret
      obtain ⟨g1, g2, g3, g4, g5, g6, -, -⟩ :=
        map_add_key_symbol_frame h realloc fuel _ _ _ _ _ _ hsym
      by_cases hr2 : r2 = 0
      · subst hr2
        simp only [ne_eq, not_true_eq_false, if_false] at hret
        obtain ⟨e1, e2, e3, e4, e5, e6, e7⟩ :=
          map_get_hash_loop_frame h realloc key fuel _ _ _ _ _ _ hret
        have hk := map_add_key_symbol_zero h realloc fuel _ _ _ _ _ hsym
        exact ⟨e1.trans g1, e2.trans g2, e3.trans g3, e4.trans g4, e5.trans g5, e6.trans g6,
          fun hne => (e7 hne).trans hk⟩
      · simp only [ne_eq, hr2, not_false_eq_true, if_true, Option.some.injEq,
          Prod.mk.injEq] at hret
        obtain ⟨rfl, -, rfl⟩ := hret
        exact ⟨g1, g2, g3, g4, g5, g6, fun hne => absurd rfl hne⟩

/-! ### The chains of a map -/

theorem map_get_hash_loop_range (h : helpers) (realloc : Nat → Bool) (key : Nat → Nat)
    (fuel : Nat) :
    ∀ (as : map) (n hash : Nat) (as1 : map) (n1 r : Nat),
      map_get_hash_loop h realloc key fuel as n hash = some (as1, n1, r) →
      r = SIZE_MAX ∨ r < MAP_HASH_MAX := by
  induction fuel with
  | zero =>
    intro as n hash as1 n1 r hret
    simp [map_get_hash_loop] at hret
  | succ fuel ih =>
    intro as n hash as1 n1 r hret
    unfold map_get_hash_loop at hret
    simp only at hret
    split at hret
    · simp only [Option.some.injEq, Prod.mk.injEq] at hret
      obtain ⟨-, -, rfl⟩ := hret
      exact Or.inr (Nat.mod_lt _ (by decide))
    · split at hret
      · simp only [Option.some.injEq, Prod.mk.injEq] at hret
        exact Or.inl hret.2.2.symm
      · split at hret
        · simp at hret
        · split at hret
          · simp only [Option.some.injEq, Prod.mk.injEq] at hret
            exact Or.inl hret.2.2.symm
          · exact ih _ _ _ _ _ _ hret

theorem map_get_hash_range (h : helpers) (realloc : Nat → Bool) (fuel : Nat) (as : map)
    (n : Nat) (key : Nat → Nat) (as1 : map) (n1 r : Nat)
    (hret : map_get_hash h realloc fuel as n key = some (as1, n1, r)) :
    r = SIZE_MAX ∨ r < MAP_HASH_MAX := by
  unfold map_get_hash at hret
  simp only at hret
  split at hret
  · simp only [Option.some.injEq, Prod.mk.injEq] at hret
    exact Or.inl hret.2.2.symm
  · split at hret
    · simp at hret
    · split at hret
      · simp only [Option.some.injEq, Prod.mk.injEq] at hret
        exact Or.inl hret.2.2.symm
      · exact map_get_hash_loop_range h realloc key fuel _ _ _ _ _ _ hret

theorem map_add_by_hash_loop_walk (h : helpers) (as : map) (value : Int) (P : Nat → Prop)
    (hin : map_chains_in P as) (fuel : Nat) :
    ∀ (index idx : Nat), P index →
      map_add_by_hash_loop h as value fuel index = some (Sum.inr idx) →
      P idx ∧ (as.values idx).next = SIZE_MAX := by
  induction fuel with
  | zero =>
    intro index idx _ hret
    simp [map_add_by_hash_loop] at hret
  | succ fuel ih =>
    intro index idx hP hret
    unfold map_add_by_hash_loop at hret
    split at hret
    · rename_i hnext
      split at hret
      · simp at hret
      · split at hret
        · simp at hret
        · exact ih _ _ ((hin.2 index hP).2 hnext) hret
    · rename_i hnext
      simp only [Option.some.injEq, Sum.inr.injEq] at hret
      subst hret
      exact ⟨hP, by simpa using hnext⟩

theorem map_add_by_hash_loop_no_match (h : helpers) (hcmp : ∀ x y, h.strcmp x y ≠ some 0)
    (as : map) (value : Int) (fuel : Nat) :
    ∀ (index r : Nat), map_add_by_hash_loop h as value fuel index ≠ some (Sum.inl r) := by
  induction fuel with
  | zero =>
    intro index r hret
    simp [map_add_by_hash_loop] at hret
  | succ fuel ih =>
    intro index r hret
    unfold map_add_by_hash_loop at hret
    split at hret
    · split at hret
      · simp at hret
      · rename_i c hc
        split at hret
        · rename_i hc0
          subst hc0
          unfold map_cmp_key at hc
          split at hc
          · exact hcmp _ _ hc
          · simp at hc
        · exact ih _ _ hret
    · simp at hret

theorem map_fill_node_chains_in (P : Nat → Prop) (as : map) (index : Nat) (value : Int)
    (hin : map_chains_in P as) : map_chains_in P (map_fill_node as index value) := by
  refine ⟨hin.1, ?_⟩
  intro k hk
  have hnext : ((map_fill_node as index value).values k).next = (as.values k).next := by
    unfold map_fill_node
    by_cases hki : k = index
    · subst hki
      simp
    · simp [Function.update_noteq hki]
  rw [hnext]
  exact hin.2 k hk

theorem map_append_node_chains_in (P : Nat → Prop) (as : map) (index : Nat) (value : Int)
    (hin : map_chains_in P as) (hb : as.values_size + 1 < 18446744073709551616) :
    map_chains_in (fun k => P k ∨ k = as.values_size) (map_append_node as index value).1 := by
  have hsize : (map_append_node as index value).1.values_size = as.values_size + 1 := by
    simp only [map_append_node]
    exact Nat.mod_eq_of_lt hb
  refine ⟨fun k hk => Or.inl (hin.1 k hk), ?_⟩
  intro k hk
  rw [hsize]
  by_cases hkv : k = as.values_size
  · subst hkv
    refine ⟨Nat.lt_succ_self _, ?_⟩
    intro hne
    exfalso
    apply hne
    simp [map_append_node]
  · have hPk : P k := by
      rcases hk with hk | hk
      · exact hk
      · exact absurd hk hkv
    have hlt := (hin.2 k hPk).1
    refine ⟨by omega, ?_⟩
    by_cases hki : k = index
    · subst hki
      intro _
      right
      simp [map_append_node, Function.update_noteq hkv]
    · intro hne
      left
      have hval : ((map_append_node as index value).1.values k) = as.values k := by
        simp [map_append_node, Function.update_noteq hkv, Function.update_noteq hki]
      rw [hval] at hne ⊢
      exact (hin.2 k hPk).2 hne

theorem map_add_by_hash_chains_ok (h : helpers) (realloc : Nat → Bool) (fuel : Nat) (as : map)
    (n hash : Nat) (value : Int) (as' : map) (n' r : Nat)
    (hinv : map_chains_ok as) (hb : as.values_size < 9223372036854775808)
    (hh : hash = SIZE_MAX ∨ hash < MAP_HASH_MAX)
    (hret : map_add_by_hash h realloc fuel as n hash value = some (as', n', r)) :
    map_chains_ok as' := by
  obtain ⟨h256, P, hin⟩ := hinv
  unfold map_add_by_hash at hret
  split at hret
  · simp only [Option.some.injEq, Prod.mk.injEq] at hret
    obtain ⟨rfl, -, -⟩ := hret
    exact ⟨h256, P, hin⟩
  · rename_i hne
    have hlt : hash < MAP_HASH_MAX := by
      rcases hh with hh | hh
      · exact absurd hh hne
      · exact hh
    split at hret
    · simp at hret
    · simp only [Option.some.injEq, Prod.mk.injEq] at hret
      obtain ⟨rfl, -, -⟩ := hret
      exact ⟨h256, P, hin⟩
    · rename_i index hloop
      have hPi := (map_add_by_hash_loop_walk h as value P hin fuel hash index
        (hin.1 hash hlt) hloop).1
      split at hret
      · simp only [Option.some.injEq, Prod.mk.injEq] at hret
        obtain ⟨rfl, -, -⟩ := hret
        exact ⟨h256, P, map_fill_node_chains_in P as index value hin⟩
      · split at hret
        · split at hret
          · simp only [Option.some.injEq, Prod.mk.injEq] at hret
            obtain ⟨rfl, -, -⟩ := hret
            exact ⟨h256, P, hin⟩
          · simp only [Option.some.injEq, Prod.mk.injEq] at hret
            obtain ⟨rfl, -, -⟩ := hret
            have hdouble : as.values_size * 2 % 18446744073709551616 = as.values_size * 2 := by
              apply Nat.mod_eq_of_lt
              omega
            have hin1 : map_chains_in P
                { as with values_size := as.values_size * 2 % 18446744073709551616 } := by
              refine ⟨hin.1, ?_⟩
              intro k hk
              refine ⟨?_, (hin.2 k hk).2⟩
              have := (hin.2 k hk).1
              simp only [hdouble]
              omega
            have hok := map_append_node_chains_in P
              { as with values_size := as.values_size * 2 % 18446744073709551616 } index value
              hin1 (by simp only [hdouble]; omega)
            refine ⟨?_, _, hok⟩
            simp only [map_append_node, hdouble]
            unfold MAP_HASH_MAX at h256 ⊢
            omega
        · simp only [Option.some.injEq, Prod.mk.injEq] at hret
          obtain ⟨rfl, -, -⟩ := hret
          have hok := map_append_node_chains_in P as index value hin (by omega)
          refine ⟨?_, _, hok⟩
          simp only [map_append_node]
          unfold MAP_HASH_MAX at h256 ⊢
          omega

theorem map_add_chains_ok (h : helpers) (realloc : Nat → Bool) (fuel : Nat) (as : map)
    (n : Nat) (key : Nat → Nat) (value : Int) (as' : map) (n' r : Nat)
    (hinv : map_chains_ok as) (hb : as.values_size < 9223372036854775808)
    (hret : map_add h realloc fuel as n key value = some (as', n', r)) :
    map_chains_ok as' := by
  unfold map_add at hret
  split at hret
  · simp only [Option.some.injEq, Prod.mk.injEq] at hret
    obtain ⟨rfl, -, -⟩ := hret
    exact hinv
  · split at hret
    · simp at hret
    · rename_i as1 n1 hash hhash
      obtain ⟨e1, e2, -, -, -, -, -⟩ := map_get_hash_frame h realloc fuel _ _ _ _ _ _ hhash
      have hinv1 : map_chains_ok as1 := by
        obtain ⟨h256, P, hin⟩ := hinv
        refine ⟨by rw [e2]; exact h256, P, hin.1, ?_⟩
        intro k hk
        rw [e1, e2]
        exact hin.2 k hk
      exact map_add_by_hash_chains_ok h realloc fuel as1 n1 hash value as' n' r hinv1
        (by rw [e2]; exact hb) (map_get_hash_range h realloc fuel _ _ _ _ _ _ hhash) hret

theorem map_create_chains_ok (junk : map) (values : Nat) :
    map_chains_ok (map_create true true junk values) := by
  refine ⟨?_, fun k => k < MAP_HASH_MAX, fun k hk => hk, ?_⟩
  · simp [map_create]
  · intro k hk
    refine ⟨by simpa [map_create] using hk, ?_⟩
    intro hne
    exfalso
    apply hne
    simp [map_create, hk]

theorem map_reachable_chains_ok (h : helpers) (as : map) (hr : map_reachable h as) :
    map_chains_ok as := by
  induction hr with
  | create junk values => exact map_create_chains_ok junk values
  | add realloc fuel as n key value as' n' r _ hb hret ih =>
    exact map_add_chains_ok h realloc fuel as n key value as' n' r ih hb hret

theorem map_add_by_hash_new_handle (h : helpers) (hcmp : ∀ x y, h.strcmp x y ≠ some 0)
    (realloc : Nat → Bool) (fuel : Nat) (as : map) (n hash : Nat) (value : Int) (as' : map)
    (n' r : Nat) (P : Nat → Prop) (hin : map_chains_in P as)
    (hb : as.values_size < 9223372036854775808)
    (hh : hash = SIZE_MAX ∨ hash < MAP_HASH_MAX)
    (hret : map_add_by_hash h realloc fuel as n hash value = some (as', n', r))
    (hr : r ≠ SIZE_MAX) :
    ((as.values r).ref = SIZE_MAX ∨ r = as.values_size ∨
        r = as.values_size * 2 % 18446744073709551616) ∧
      (as'.values r).ref = as.keys_size ∧ r < as'.values_size ∧
      as'.values_size ≤ 2 * as.values_size + 1 := by
  unfold map_add_by_hash at hret
  split at hret
  · simp only [Option.some.injEq, Prod.mk.injEq] at hret
    exact absurd hret.2.2.symm hr
  · rename_i hne
    have hlt : hash < MAP_HASH_MAX := by
      rcases hh with hh | hh
      · exact absurd hh hne
      · exact hh
    split at hret
    · simp at hret
    · rename_i r0 hloop
      exact absurd hloop (map_add_by_hash_loop_no_match h hcmp as value fuel hash r0)
    · rename_i index hloop
      have hPi := (map_add_by_hash_loop_walk h as value P hin fuel hash index
        (hin.1 hash hlt) hloop).1
      have hidx := (hin.2 index hPi).1
      split at hret
      · rename_i href
        simp only [Option.some.injEq, Prod.mk.injEq] at hret
        obtain ⟨rfl, -, rfl⟩ := hret
        refine ⟨Or.inl href, ?_, ?_, ?_⟩
        · simp [map_fill_node]
        · simpa [map_fill_node] using hidx
        · simp only [map_fill_node]
          omega
      · split at hret
        · split at hret
          · simp only [Option.some.injEq, Prod.mk.injEq] at hret
            exact absurd hret.2.2.symm hr
          · simp only [Option.some.injEq, Prod.mk.injEq] at hret
            obtain ⟨rfl, -, rfl⟩ := hret
            have hdouble : as.values_size * 2 % 18446744073709551616 = as.values_size * 2 := by
              apply Nat.mod_eq_of_lt
              omega
            have hsucc : (as.values_size * 2 + 1) % 18446744073709551616
                = as.values_size * 2 + 1 := by
              apply Nat.mod_eq_of_lt
              omega
            refine ⟨Or.inr (Or.inr ?_), ?_, ?_, ?_⟩
            · simp [map_append_node]
            · simp [map_append_node]
            · simp only [map_append_node, hdouble, hsucc]
              omega
            · simp only [map_append_node, hdouble, hsucc]
              omega
        · simp only [Option.some.injEq, Prod.mk.injEq] at hret
          obtain ⟨rfl, -, rfl⟩ := hret
          have hsucc : (as.values_size + 1) % 18446744073709551616 = as.values_size + 1 := by
            apply Nat.mod_eq_of_lt
            omega
          refine ⟨Or.inr (Or.inl ?_), ?_, ?_, ?_⟩
          · simp [map_append_node]
          · simp [map_append_node]
          · simp only [map_append_node, hsucc]
            omega
          · simp only [map_append_node, hsucc]
            omega

theorem map_add_new_handle (h : helpers) (hcmp : ∀ x y, h.strcmp x y ≠ some 0)
    (realloc : Nat → Bool) (fuel : Nat) (as : map) (n : Nat) (key : Nat → Nat) (value : Int)
    (as' : map) (n' r : Nat) (hinv : map_chains_ok as)
    (hb : as.values_size < 9223372036854775808)
    (hret : map_add h realloc fuel as n key value = some (as', n', r)) (hr : r ≠ SIZE_MAX) :
    ((as.values r).ref = SIZE_MAX ∨ r = as.values_size ∨
        r = as.values_size * 2 % 18446744073709551616) ∧
      (as'.values r).ref = as.keys_size ∧ r < as'.values_size ∧
      as'.values_size ≤ 2 * as.values_size + 1 := by
  unfold map_add at hret
  split at hret
  · simp only [Option.some.injEq, Prod.mk.injEq] at hret
    exact absurd hret.2.2.symm hr
  · split at hret
    · simp at hret
    · rename_i as1 n1 hash hhash
      obtain ⟨e1, e2, -, -, -, -, e7⟩ := map_get_hash_frame h realloc fuel _ _ _ _ _ _ hhash
      have hrange := map_get_hash_range h realloc fuel _ _ _ _ _ _ hhash
      have hhne : hash ≠ SIZE_MAX := by
        intro hs
        subst hs
        simp only [map_add_by_hash, if_true, Option.some.injEq, Prod.mk.injEq] at hret
        exact hr hret.2.2.symm
      obtain ⟨-, P, hin⟩ := hinv
      have hin1 : map_chains_in P as1 := by
        refine ⟨hin.1, ?_⟩
        intro k hk
        rw [e1, e2]
        exact hin.2 k hk
      have hres := map_add_by_hash_new_handle h hcmp realloc fuel as1 n1 hash value as' n' r P
        hin1 (by rw [e2]; exact hb) hrange hret hr
      rw [e1, e2, e7 hhne] at hres
      exact hres

/-- Handles under a `strcmp` that never answers `0`. Let `strcmp` never report the two
arguments `map_cmp_key` hands it as equal (it is called on two characters, not on the addresses
of two spellings). For every map obtained from `map_create` by `map_add` calls whose sizes are
away from the end of the `size_t` range, and any two keys `a` and `b`: when `map_add(a, va)`
succeeds with index `i` and the following `map_add(b, vb)` succeeds with index `j`, then `i` and
`j` are different. -/
theorem map_add_distinct_handles (h : helpers) (hcmp : ∀ x y, h.strcmp x y ≠ some 0)
    (realloc₁ realloc₂ : Nat → Bool) (fuel₁ fuel₂ : Nat) (as : map) (n₁ n₂ : Nat)
    (a b : Nat → Nat) (va vb : Int) (as₁ as₂ : map) (k₁ k₂ i j : Nat)
    (hreach : map_reachable h as) (hvalues : as.values_size < 2 ^ 62)
    (hkeys : as.keys_size < SIZE_MAX)
    (ha : map_add h realloc₁ fuel₁ as n₁ a va = some (as₁, k₁, i)) (hi : i ≠ SIZE_MAX)
    (hb : map_add h realloc₂ fuel₂ as₁ n₂ b vb = some (as₂, k₂, j)) (hj : j ≠ SIZE_MAX) :
    i ≠ j := by
  have hinv := map_reachable_chains_ok h as hreach
  have hv : as.values_size < 4611686018427387904 := by
    norm_num at hvalues
    exact hvalues
  obtain ⟨-, href, hilt, hsize⟩ :=
    map_add_new_handle h hcmp realloc₁ fuel₁ as n₁ a va as₁ k₁ i hinv (by omega) ha hi
  have hinv₁ := map_add_chains_ok h realloc₁ fuel₁ as n₁ a va as₁ k₁ i hinv (by omega) ha
  obtain ⟨hcase, -, -, -⟩ :=
    map_add_new_handle h hcmp realloc₂ fuel₂ as₁ n₂ b vb as₂ k₂ j hinv₁ (by omega) hb hj
  intro hij
  subst hij
  rcases hcase with hc | hc | hc
  · rw [href] at hc
    omega
  · omega
  · omega

/-- An instance of `map_add_distinct_handles`: on `map_create(1)` the identifiers `ab` and `ba`
fall in the bucket `195`; `map_add("ab", 1)` returns `195` and `map_add("ba", 2)` returns
`256`. -/
theorem map_add_distinct_handles_witness :
    (sample_first.2.2 = 195 ∧ sample_second.2.2 = 256 ∧
      map_fresh.values_size < 2 ^ 62 ∧ map_fresh.keys_size < SIZE_MAX) ∧
    sample_first.2.2 ≠ sample_second.2.2 :=
  ⟨by decide,
    map_add_distinct_handles (sample_helpers true) (fun _ _ hc => Option.noConfusion hc)
      realloc_always realloc_always 10 10 map_fresh 0 sample_first.2.1 (c_string [97, 98])
      (c_string [98, 97]) 1 2 sample_first.1 sample_second.1 sample_first.2.1 sample_second.2.1
      sample_first.2.2 sample_second.2.2
      (map_reachable.create map_junk 1) (by decide) (by decide) (Option.some_get (by decide)).symm
      (by decide) (Option.some_get (by decide)).symm (by decide)⟩

theorem map_add_key_symbol_sample_a (s : Bool) (realloc : Nat → Bool) (fuel : Nat) (as : map)
    (n : Nat) (hroom : as.keys_next + 8 ≤ as.keys_alloc)
    (halloc : as.keys_alloc < 18446744073709551616) :
    map_add_key_symbol (sample_helpers s) realloc (fuel + 1) as n 97 =
      some ({ as with keys := write_bytes as.keys as.keys_next [97, 0]
                      keys_next := as.keys_next + 1 }, n, 0) := by
  have h1 : (as.keys_alloc + 18446744073709551616 - as.keys_next) % 18446744073709551616
      = as.keys_alloc - as.keys_next := by omega
  have h2 : (as.keys_next + 1) % 18446744073709551616 = as.keys_next + 1 := by omega
  have h3 : 8 ≤ as.keys_alloc - as.keys_next := by omega
  simp [map_add_key_symbol, sample_helpers, char_param, sample_to_string, h1, h2, h3]

theorem map_get_hash_loop_sample_a (s : Bool) (realloc : Nat → Bool) (key : Nat → Nat)
    (L : Nat) (hkey : ∀ i, i < L → key i = 97) (hend : key L = 0) (fuel : Nat) :
    ∀ (p : Nat) (as : map) (n hash : Nat), p ≤ L → L - p + 1 ≤ fuel →
      as.keys_next = as.keys_size + p → as.keys_size + L + 7 ≤ as.keys_alloc →
      as.keys_alloc < 18446744073709551616 →
      ∃ as' r, map_get_hash_loop (sample_helpers s) realloc key fuel as n hash = some (as', n, r)
        ∧ r < MAP_HASH_MAX ∧ as'.keys_next = as.keys_size + L := by
  induction fuel with
  | zero =>
    intro p as n hash _ hf
    omega
  | succ fuel ih =>
    intro p as n hash hp hf hnext hroom halloc
    have hoff : (as.keys_next + 18446744073709551616 - as.keys_size) % 18446744073709551616
        = p := by omega
    unfold map_get_hash_loop
    simp only [hoff]
    by_cases hpL : p = L
    · subst hpL
      rw [if_pos hend]
      exact ⟨as, hash % MAP_HASH_MAX, rfl, Nat.mod_lt _ (by decide), hnext⟩
    · have hlt : p < L := by omega
      have hkp : key p = 97 := hkey p hlt
      have hconv : (sample_helpers s).utf8_convert (fun i => key (p + i)) = 97 := by
        simp [sample_helpers, sample_convert, hkp]
      obtain ⟨f, rfl⟩ : ∃ f, fuel = f + 1 := ⟨fuel - 1, by omega⟩
      rw [if_neg (by rw [hkp]; decide), hconv]
      have hsym := map_add_key_symbol_sample_a s realloc f as n (by omega) halloc
      rw [hsym]
      have hl : (!(sample_helpers s).utf8_is_letter 97 && !(sample_helpers s).utf8_is_digit 97)
          = false := by
        simp [sample_helpers, sample_is_letter]
      simp only [hl, Bool.false_eq_true, if_false, ne_eq, not_true_eq_false]
      obtain ⟨as', r, hret, hr, hn⟩ := ih (p + 1)
        { as with keys := write_bytes as.keys as.keys_next [97, 0]
                  keys_next := as.keys_next + 1 } n ((hash + 97) % 18446744073709551616)
        (by omega) (by omega) (by simp only; omega) hroom halloc
      exact ⟨as', r, hret, hr, hn⟩

theorem map_get_hash_sample_a (s : Bool) (realloc : Nat → Bool) (key : Nat → Nat)
    (L : Nat) (hL : 1 ≤ L) (hkey : ∀ i, i < L → key i = 97) (hend : key L = 0) (fuel : Nat)
    (as : map) (n : Nat) (hf : L + 1 ≤ fuel) (hroom : as.keys_size + L + 7 ≤ as.keys_alloc)
    (halloc : as.keys_alloc < 18446744073709551616) :
    ∃ as' r, map_get_hash (sample_helpers s) realloc fuel as n key = some (as', n, r)
      ∧ r < MAP_HASH_MAX ∧ as'.keys_next = as.keys_size + L := by
  obtain ⟨f, rfl⟩ : ∃ f, fuel = f + 1 := ⟨fuel - 1, by omega⟩
  have hk0 : key 0 = 97 := hkey 0 (by omega)
  have hconv : (sample_helpers s).utf8_convert key = 97 := by
    simp [sample_helpers, sample_convert, hk0]
  have hl : (!(sample_helpers s).utf8_is_letter 97) = false := by
    simp [sample_helpers, sample_is_letter]
  have hsym := map_add_key_symbol_sample_a s realloc f { as with keys_next := as.keys_size } n
    (by simp only; omega) halloc
  unfold map_get_hash
  simp only [hconv, hl, Bool.false_eq_true, if_false, hsym, ne_eq, not_true_eq_false]
  obtain ⟨as', r, hret, hr, hn⟩ := map_get_hash_loop_sample_a s realloc key L hkey hend (f + 1) 1
    { as with keys := write_bytes as.keys as.keys_size [97, 0], keys_next := as.keys_size + 1 }
    n 97 hL (by omega) rfl hroom halloc
  exact ⟨as', r, hret, hr, hn⟩

theorem map_add_fresh_sample_a (s : Bool) (realloc : Nat → Bool) (junk : map) (values : Nat)
    (key : Nat → Nat) (L : Nat) (hL : 1 ≤ L) (hkey : ∀ i, i < L → key i = 97)
    (hend : key L = 0) (fuel n : Nat) (value : Int) (hf : L + 1 ≤ fuel)
    (hroom : L + 7 ≤ (map_create true true junk values).keys_alloc) :
    ∃ as' r, map_add (sample_helpers s) realloc fuel (map_create true true junk values) n key
        value = some (as', n, r)
      ∧ as'.keys_size = L + 1
      ∧ as'.keys_alloc = (map_create true true junk values).keys_alloc
      ∧ map_is_correct as' = true := by
  have hks : (map_create true true junk values).keys_size = 0 := by simp [map_create]
  have halloc : (map_create true true junk values).keys_alloc < 18446744073709551616 := by
    simp only [map_create, Bool.not_true, Bool.false_eq_true, if_false]
    exact Nat.mod_lt _ (by decide)
  obtain ⟨as1, r, hhash, hr, hnext⟩ := map_get_hash_sample_a s realloc key L hL hkey hend fuel
    (map_create true true junk values) n hf (by rw [hks]; omega) halloc
  obtain ⟨e1, e2, e3, e4, e5, e6, e7⟩ :=
    map_get_hash_frame (sample_helpers s) realloc fuel _ _ _ _ _ _ hhash
  have hrne : r ≠ SIZE_MAX := by
    unfold MAP_HASH_MAX at hr
    unfold SIZE_MAX
    omega
  have hnode : as1.values r = { next := SIZE_MAX, ref := SIZE_MAX, value := (junk.values r).value } := by
    rw [e1]
    simp [map_create, hr]
  obtain ⟨f, rfl⟩ : ∃ f, fuel = f + 1 := ⟨fuel - 1, by omega⟩
  have hloop : map_add_by_hash_loop (sample_helpers s) as1 value (f + 1) r = some (Sum.inr r) := by
    unfold map_add_by_hash_loop
    simp [hnode]
  refine ⟨map_fill_node as1 r value, r, ?_, ?_, ?_, ?_⟩
  · unfold map_add
    have hc : map_is_correct (map_create true true junk values) = true := by
      simp [map_create, map_is_correct]
    simp only [hc, Bool.not_true, Bool.false_eq_true, if_false, hhash]
    unfold map_add_by_hash
    simp only [hrne, if_false, hloop]
    simp [hnode]
  · simp only [map_fill_node, hnext, hks]
    omega
  · simp only [map_fill_node, e6]
  · simp only [map_fill_node, map_is_correct, e4, e5]
    simp [map_create]

theorem c_string_replicate (L i : Nat) (hi : i < L) : c_string (List.replicate L 97) i = 97 := by
  simp [c_string, List.getD, List.getElem?_replicate, hi]

theorem c_string_replicate_end (L : Nat) : c_string (List.replicate L 97) L = 0 := by
  simp [c_string, List.getD, List.getElem?_replicate]

theorem map_add_long_key :
    ∃ as' r, map_add (sample_helpers true) realloc_always 2051 map_fresh 0 long_key 0
        = some (as', 0, r) ∧
      map_reachable (sample_helpers true) as' ∧ map_is_correct as' = true ∧
      as'.keys_size = 2050 ∧ as'.keys_alloc = 2056 := by
  have hkey : ∀ i, i < 2049 → long_key i = 97 :=
    fun i hi => c_string_replicate 2049 i hi
  have hend : long_key 2049 = 0 := c_string_replicate_end 2049
  have halloc : (map_create true true map_junk 1).keys_alloc = 2056 := by
    simp [map_create, MAP_HASH_MAX, MAP_KEY_SIZE]
  have hroom : 2049 + 7 ≤ (map_create true true map_junk 1).keys_alloc := by
    rw [halloc]
  obtain ⟨as', r, hadd, h1, h2, h3⟩ := map_add_fresh_sample_a true realloc_always map_junk 1
    long_key 2049 (by omega) hkey hend 2051 0 0 (by omega) hroom
  refine ⟨as', r, hadd, ?_, h3, h1, by rw [h2, halloc]⟩
  exact map_reachable.add realloc_always 2051 _ 0 _ 0 as' 0 r (map_reachable.create map_junk 1)
    (by simp [map_create, MAP_HASH_MAX]) hadd

theorem map_add_key_symbol_no_room_once (h : helpers) (f : Nat) (as : map) (ch : Nat)
    (hroom : ¬ h.MAX_SYMBOL_SIZE ≤
      (as.keys_alloc + 18446744073709551616 - as.keys_next) % 18446744073709551616) :
    map_add_key_symbol h realloc_once (f + 2) as 0 ch =
      some ({ as with keys_size := as.keys_size * 2 % 18446744073709551616 }, 2, -1) := by
  simp [map_add_key_symbol, hroom, realloc_once]

theorem map_add_key_symbol_no_room_always (h : helpers) (realloc : Nat → Bool)
    (hre : ∀ k, realloc k = true) (fuel : Nat) :
    ∀ (as : map) (n ch : Nat),
      ¬ h.MAX_SYMBOL_SIZE ≤
        (as.keys_alloc + 18446744073709551616 - as.keys_next) % 18446744073709551616 →
      map_add_key_symbol h realloc fuel as n ch = none := by
  induction fuel with
  | zero =>
    intro as n ch _
    rfl
  | succ fuel ih =>
    intro as n ch hroom
    unfold map_add_key_symbol
    rw [if_neg hroom]
    simp only [hre, Bool.not_true, Bool.false_eq_true, if_false]
    exact ih _ _ _ hroom

theorem map_add_no_room_once (f : Nat) (as : map) (value : Int)
    (hc : map_is_correct as = true) (hsize : as.keys_size = 2050)
    (halloc : as.keys_alloc = 2056) :
    map_add (sample_helpers true) realloc_once (f + 2) as 0 (c_string [97, 33]) value =
      some ({ as with keys_next := 2050, keys_size := 4100 }, 2, SIZE_MAX) := by
  have hroom : ¬ (sample_helpers true).MAX_SYMBOL_SIZE ≤
      (({ as with keys_next := as.keys_size } : map).keys_alloc + 18446744073709551616
        - ({ as with keys_next := as.keys_size } : map).keys_next) % 18446744073709551616 := by
    simp [sample_helpers, hsize, halloc]
  have hsym := map_add_key_symbol_no_room_once (sample_helpers true) f
    { as with keys_next := as.keys_size } 97 hroom
  have hconv : (sample_helpers true).utf8_convert (c_string [97, 33]) = 97 := by decide
  have hl : (!(sample_helpers true).utf8_is_letter 97) = false := by decide
  unfold map_add map_get_hash
  simp only [hc, Bool.not_true, Bool.false_eq_true, if_false, hconv, hl, hsym]
  simp [map_add_by_hash, hsize]

/-- C5, the code at the failing input. The map is `map_create(1)` after `map_add` of an
identifier of 2049 letters: 2050 of the 2056 bytes of its key block are in use, fewer than
`MAX_SYMBOL_SIZE`. The key `a!` is not an identifier. With a `realloc` that succeeds once and
then fails, `map_add` returns `SIZE_MAX` but `keys_size` has gone from `2050` to `4100`:
`map_add_key_symbol` doubles `keys_size` where it should double `keys_alloc`. -/
theorem map_add_rejected_key_moves_keys_size :
    ∃ as r, map_add (sample_helpers true) realloc_always 2051 map_fresh 0 long_key 0
        = some (as, 0, r) ∧
      map_is_correct as = true ∧ as.keys_size = 2050 ∧
      (map_add (sample_helpers true) realloc_once 10 as 0 (c_string [97, 33]) 3).map
        (fun x => (x.2.2, x.1.keys_size, x.1.keys_alloc)) = some (SIZE_MAX, 4100, 2056) := by
  obtain ⟨as, r, hadd, -, hc, hsize, halloc⟩ := map_add_long_key
  refine ⟨as, r, hadd, hc, hsize, ?_⟩
  rw [map_add_no_room_once 8 as 3 hc hsize halloc]
  simp [halloc]

/-- C12, the code at the failing input. On `map_create(1)`, `map_add("a", 3)` returns `97`; then
`map_add("a", 4)` returns the new node `256` instead of `SIZE_MAX`: the map now has 257 nodes,
the spelling is stored twice (`keys_size` went from 2 to 4), with value 3 at node 97 and value 4
at node 256. -/
theorem map_add_conflicting_value_stored :
    result_of (map_add (sample_helpers true) realloc_always 10 map_fresh 0 (c_string [97]) 3)
      = some 97 ∧
    (map_add_two map_fresh (c_string [97]) 3 (c_string [97]) 4).map
      (fun x => (x.2.2, x.1.values_size, x.1.keys_size, (x.1.values 97).value,
        (x.1.values 256).value, (x.1.values 97).next)) = some (256, 257, 4, 3, 4, 256) := by
  decide

/-- C13, the code at the failing input. The map is `map_create(1)` after `map_add` of an
identifier of 2049 letters: its key block has fewer than `MAX_SYMBOL_SIZE` free bytes. With a
`realloc` that always succeeds, `map_add("a", 3)` returns within no number of steps:
`map_add_key_symbol` doubles `keys_size`, leaves `keys_alloc` as it was, and calls itself on a
buffer that is as full as before. -/
theorem map_add_recurses_without_progress :
    ∃ as r, map_add (sample_helpers true) realloc_always 2051 map_fresh 0 long_key 0
        = some (as, 0, r) ∧
      map_is_correct as = true ∧ as.keys_size = 2050 ∧ as.keys_alloc = 2056 ∧
      ∀ fuel, map_add (sample_helpers true) realloc_always fuel as 0 (c_string [97]) 3 = none := by
  obtain ⟨as, r, hadd, -, hc, hsize, halloc⟩ := map_add_long_key
  refine ⟨as, r, hadd, hc, hsize, halloc, ?_⟩
  intro fuel
  have hroom : ¬ (sample_helpers true).MAX_SYMBOL_SIZE ≤
      (({ as with keys_next := as.keys_size } : map).keys_alloc + 18446744073709551616
        - ({ as with keys_next := as.keys_size } : map).keys_next) % 18446744073709551616 := by
    simp [sample_helpers, hsize, halloc]
  have hsym := map_add_key_symbol_no_room_always (sample_helpers true) realloc_always
    (fun _ => rfl) fuel { as with keys_next := as.keys_size } 0 97 hroom
  have hconv : (sample_helpers true).utf8_convert (c_string [97]) = 97 := by decide
  have hl : (!(sample_helpers true).utf8_is_letter 97) = false := by decide
  unfold map_add map_get_hash
  simp only [hc, Bool.not_true, Bool.false_eq_true, if_false, hconv, hl, hsym]

/-- C14, the code at the failing input. On `map_create(0)` the identifiers `ab` and `ba` fall in
the bucket `195`. `map_add("ab", 1)` returns `195`; `map_add("ba", 2)` has to grow the node
table, returns `512`, and leaves `values_size = 513` with `values_alloc = 256`:
`map_add_by_hash` doubles `values_size` where it should double `values_alloc`. -/
theorem map_add_values_size_exceeds_alloc :
    map_fresh0.values_size = 256 ∧ map_fresh0.values_alloc = 256 ∧
    result_of (map_add (sample_helpers true) realloc_always 10 map_fresh0 0 (c_string [97, 98]) 1)
      = some 195 ∧
    (map_add_two map_fresh0 (c_string [97, 98]) 1 (c_string [98, 97]) 2).map
      (fun x => (x.2.2, x.1.values_size, x.1.values_alloc, (x.1.values 195).next))
      = some (512, 513, 256, 512) := by
  decide

/-! ### Chains as lists -/

theorem map_add_by_hash_frame (h : helpers) (realloc : Nat → Bool) (fuel : Nat) (as : map)
    (n hash : Nat) (value : Int) (as' : map) (n' r : Nat)
    (hret : map_add_by_hash h realloc fuel as n hash value = some (as', n', r)) :
    as'.values_null = as.values_null ∧ as'.keys_null = as.keys_null ∧
    as'.values_alloc = as.values_alloc ∧ as'.keys_alloc = as.keys_alloc := by
  unfold map_add_by_hash at hret
  split at hret
  · simp only [Option.some.injEq, Prod.mk.injEq] at hret
    obtain ⟨rfl, -, -⟩ := hret
    exact ⟨rfl, rfl, rfl, rfl⟩
  · split at hret
    · simp at hret
    · simp only [Option.some.injEq, Prod.mk.injEq] at hret
      obtain ⟨rfl, -, -⟩ := hret
      exact ⟨rfl, rfl, rfl, rfl⟩
    · split at hret
      · simp only [Option.some.injEq, Prod.mk.injEq] at hret
        obtain ⟨rfl, -, -⟩ := hret
        exact ⟨rfl, rfl, rfl, rfl⟩
      · split at hret
        · split at hret
          · simp only [Option.some.injEq, Prod.mk.injEq] at hret
            obtain ⟨rfl, -, -⟩ := hret
            exact ⟨rfl, rfl, rfl, rfl⟩
          · simp only [Option.some.injEq, Prod.mk.injEq] at hret
            obtain ⟨rfl, -, -⟩ := hret
            exact ⟨rfl, rfl, rfl, rfl⟩
        · simp only [Option.some.injEq, Prod.mk.injEq] at hret
          obtain ⟨rfl, -, -⟩ := hret
          exact ⟨rfl, rfl, rfl, rfl⟩

theorem map_reachable_is_correct (h : helpers) (as : map) (hr : map_reachable h as) :
    map_is_correct as = true ∧ as.values_alloc < 18446744073709551616 := by
  induction hr with
  | create junk values =>
    constructor
    · simp [map_create, map_is_correct]
    · simp only [map_create, Bool.not_true, Bool.false_eq_true, if_false]
      exact Nat.mod_lt _ (by decide)
  | add realloc fuel as n key value as' n' r _ _ hret ih =>
    unfold map_add at hret
    split at hret
    · simp only [Option.some.injEq, Prod.mk.injEq] at hret
      obtain ⟨rfl, -, -⟩ := hret
      exact ih
    · split at hret
      · simp at hret
      · rename_i as1 n1 hash hhash
        obtain ⟨-, -, e3, e4, e5, -, -⟩ := map_get_hash_frame h realloc fuel _ _ _ _ _ _ hhash
        obtain ⟨g1, g2, g3, -⟩ := map_add_by_hash_frame h realloc fuel _ _ _ _ _ _ _ hret
        constructor
        · have := ih.1
          simp only [map_is_correct, g1, g2, e4, e5] at this ⊢
          exact this
        · rw [g3, e3]
          exact ih.2

theorem map_is_chain_congr (as as' : map) (hv : as'.values = as.values) :
    ∀ (rest : List Nat) (k : Nat), map_is_chain as' k rest = map_is_chain as k rest := by
  intro rest
  induction rest with
  | nil =>
    intro k
    simp [map_is_chain, hv]
  | cons k' rest ih =>
    intro k
    simp [map_is_chain, hv, ih k']

theorem map_is_chain_mem (P : Nat → Prop) (as : map) (hin : map_chains_in P as) :
    ∀ (rest : List Nat) (k : Nat), P k → map_is_chain as k rest = true →
      ∀ x, x ∈ k :: rest → P x := by
  intro rest
  induction rest with
  | nil =>
    intro k hk _ x hx
    simp only [List.mem_singleton] at hx
    subst hx
    exact hk
  | cons k' rest ih =>
    intro k hk hchain x hx
    simp only [map_is_chain, Bool.and_eq_true, decide_eq_true_eq] at hchain
    obtain ⟨⟨hnext, hne⟩, hrest⟩ := hchain
    rcases List.mem_cons.mp hx with hx | hx
    · subst hx
      exact hk
    · have hk' : P k' := by
        have := (hin.2 k hk).2 (by rw [hnext]; exact hne)
        rwa [hnext] at this
      exact ih k' hk' hrest x hx

theorem map_is_chain_last (as : map) :
    ∀ (rest : List Nat) (k : Nat), map_is_chain as k rest = true →
      (as.values (rest.getLastD k)).next = SIZE_MAX ∧ rest.getLastD k ∈ k :: rest := by
  intro rest
  induction rest with
  | nil =>
    intro k hchain
    simp only [map_is_chain, decide_eq_true_eq] at hchain
    simp [hchain]
  | cons k' rest ih =>
    intro k hchain
    simp only [map_is_chain, Bool.and_eq_true, decide_eq_true_eq] at hchain
    obtain ⟨-, hrest⟩ := hchain
    obtain ⟨h1, h2⟩ := ih k' hrest
    rw [List.getLastD_cons]
    exact ⟨h1, List.mem_cons_of_mem _ h2⟩

theorem map_add_by_hash_loop_chain (h : helpers) (as : map) (value : Int) :
    ∀ (rest : List Nat) (k fuel : Nat), map_is_chain as k rest = true →
      (∀ x, x ∈ (k :: rest).dropLast → ∃ c, map_cmp_key h as x = some c ∧ c ≠ 0) →
      rest.length < fuel →
      map_add_by_hash_loop h as value fuel k = some (Sum.inr (rest.getLastD k)) := by
  intro rest
  induction rest with
  | nil =>
    intro k fuel hchain _ hfuel
    simp only [map_is_chain, decide_eq_true_eq] at hchain
    obtain ⟨f, rfl⟩ : ∃ f, fuel = f + 1 := ⟨fuel - 1, by simp at hfuel; omega⟩
    unfold map_add_by_hash_loop
    simp [hchain]
  | cons k' rest ih =>
    intro k fuel hchain hdiff hfuel
    simp only [map_is_chain, Bool.and_eq_true, decide_eq_true_eq] at hchain
    obtain ⟨⟨hnext, hne⟩, hrest⟩ := hchain
    obtain ⟨f, rfl⟩ : ∃ f, fuel = f + 1 := ⟨fuel - 1, by simp at hfuel; omega⟩
    obtain ⟨c, hc, hc0⟩ := hdiff k (by simp [List.dropLast])
    unfold map_add_by_hash_loop
    rw [if_pos (by rw [hnext]; exact hne)]
    simp only [hc, hc0, if_false, hnext]
    rw [List.getLastD_cons]
    apply ih k' f hrest
    · intro x hx
      apply hdiff x
      simp only [List.dropLast_cons₂] at hx ⊢
      cases rest with
      | nil => simp [List.dropLast] at hx
      | cons y ys =>
        simp only [List.dropLast_cons₂, List.mem_cons] at hx ⊢
        right
        exact hx
    · simp only [List.length_cons] at hfuel
      omega

theorem map_append_node_chain (as : map) (last : Nat) (value : Int)
    (hmax : as.values_size ≠ SIZE_MAX) (hlast : (as.values last).next = SIZE_MAX) :
    ∀ (rest : List Nat) (k : Nat), map_is_chain as k rest = true →
      (∀ x, x ∈ k :: rest → x < as.values_size) → rest.getLastD k = last →
      map_is_chain (map_append_node as last value).1 k (rest ++ [as.values_size]) = true := by
  intro rest
  induction rest with
  | nil =>
    intro k _ hlt hk
    simp only [List.getLastD_nil] at hk
    subst hk
    have hne : k ≠ as.values_size := by
      have := hlt k (by simp)
      omega
    simp [map_is_chain, map_append_node, Function.update_noteq hne, hmax]
  | cons k' rest ih =>
    intro k hchain hlt hk
    simp only [map_is_chain, Bool.and_eq_true, decide_eq_true_eq] at hchain
    obtain ⟨⟨hnext, hne⟩, hrest⟩ := hchain
    rw [List.getLastD_cons] at hk
    have hkv : k ≠ as.values_size := by
      have := hlt k (by simp)
      omega
    have hkl : k ≠ last := by
      intro hkl
      rw [hkl, hlast] at hnext
      exact hne hnext.symm
    have hval : (map_append_node as last value).1.values k = as.values k := by
      simp [map_append_node, Function.update_noteq hkv, Function.update_noteq hkl]
    have hrec := ih k' hrest (fun x hx => hlt x (List.mem_cons_of_mem _ hx)) hk
    simp only [List.cons_append, map_is_chain, Bool.and_eq_true, decide_eq_true_eq]
    exact ⟨⟨by rw [hval]; exact hnext, hne⟩, hrec⟩

/-- Chaining under a `map_cmp_key` that reports differences. Take a map obtained from
`map_create` by `map_add` calls that has spare node capacity (`values_size < values_alloc`), and
a key `b` for which `map_get_hash` returns, with bucket `hb`. Let the chain of bucket `hb` be the
nodes `hb :: rest`, all of them holding a spelling, and let `map_cmp_key` report a difference
for every node it is asked about (all but the last; none when the bucket holds a single
spelling). Then, with fuel for the chain, `map_add(b, v)` returns the old `values_size`, which is
at least 256; afterwards the chain of the bucket is the old chain followed by the new node,
whose `next` is `SIZE_MAX` and which holds the key reference and `v`; `values_size` has grown by
one; every node that existed keeps its `ref` and its `value`. -/
theorem map_add_collision_chains (h : helpers) (realloc : Nat → Bool) (fuel : Nat) (as : map)
    (n : Nat) (b : Nat → Nat) (v : Int) (as1 : map) (n1 hb : Nat) (rest : List Nat)
    (hreach : map_reachable h as) (hspare : as.values_size < as.values_alloc)
    (hhash : map_get_hash h realloc fuel as n b = some (as1, n1, hb)) (hvalid : hb ≠ SIZE_MAX)
    (hchain : map_is_chain as hb rest = true)
    (hocc : ∀ k, k ∈ hb :: rest → (as.values k).ref ≠ SIZE_MAX)
    (hdiff : ∀ k, k ∈ (hb :: rest).dropLast → ∃ c, map_cmp_key h as1 k = some c ∧ c ≠ 0)
    (hfuel : rest.length < fuel) :
    ∃ as', map_add h realloc fuel as n b v = some (as', n1, as.values_size) ∧
      MAP_HASH_MAX ≤ as.values_size ∧
      as'.values_size = as.values_size + 1 ∧
      map_is_chain as' hb (rest ++ [as.values_size]) = true ∧
      (as'.values as.values_size).next = SIZE_MAX ∧
      (as'.values as.values_size).ref = as.keys_size ∧
      (as'.values as.values_size).value = v ∧
      (∀ k, k < as.values_size →
        (as'.values k).ref = (as.values k).ref ∧ (as'.values k).value = (as.values k).value) := by
  obtain ⟨hcorrect, halloc⟩ := map_reachable_is_correct h as hreach
  obtain ⟨h256, P, hin⟩ := map_reachable_chains_ok h as hreach
  obtain ⟨e1, e2, e3, -, -, -, e7⟩ := map_get_hash_frame h realloc fuel _ _ _ _ _ _ hhash
  have hks := e7 hvalid
  have hlt : hb < MAP_HASH_MAX := by
    rcases map_get_hash_range h realloc fuel _ _ _ _ _ _ hhash with hh | hh
    · exact absurd hh hvalid
    · exact hh
  have hchain1 : map_is_chain as1 hb rest = true := by
    rw [map_is_chain_congr as as1 e1]
    exact hchain
  have hloop := map_add_by_hash_loop_chain h as1 v rest hb fuel hchain1 hdiff hfuel
  obtain ⟨hlastnext, hlastmem⟩ := map_is_chain_last as1 rest hb hchain1
  have hmem := map_is_chain_mem P as hin rest hb (hin.1 hb hlt) hchain
  have hbelow : ∀ x, x ∈ hb :: rest → x < as1.values_size := by
    intro x hx
    rw [e2]
    exact (hin.2 x (hmem x hx)).1
  have hlastocc : (as1.values (rest.getLastD hb)).ref ≠ SIZE_MAX := by
    rw [e1]
    exact hocc _ hlastmem
  have hne : as1.values_size ≠ as1.values_alloc := by
    rw [e2, e3]
    omega
  have hmax : as1.values_size ≠ SIZE_MAX := by
    rw [e2]
    unfold SIZE_MAX
    omega
  have hsucc : (as1.values_size + 1) % 18446744073709551616 = as.values_size + 1 := by
    rw [e2]
    apply Nat.mod_eq_of_lt
    omega
  have hchain' := map_append_node_chain as1 (rest.getLastD hb) v hmax hlastnext rest hb hchain1
    hbelow rfl
  refine ⟨(map_append_node as1 (rest.getLastD hb) v).1, ?_, h256, ?_, ?_, ?_, ?_, ?_, ?_⟩
  · unfold map_add
    simp only [hcorrect, Bool.not_true, Bool.false_eq_true, if_false, hhash]
    unfold map_add_by_hash
    simp only [hvalid, if_false, hloop, hlastocc, hne]
    simp [map_append_node, e2]
  · simp only [map_append_node]
    exact hsucc
  · rw [← e2]
    exact hchain'
  · simp [map_append_node, e2]
  · simp [map_append_node, e2, hks]
  · simp [map_append_node, e2]
  · intro k hk
    have hkv : k ≠ as1.values_size := by
      rw [e2]
      omega
    by_cases hkl : k = rest.getLastD hb
    · subst hkl
      simp only [map_append_node, Function.update_noteq hkv, Function.update_same, e1,
        and_self]
    · simp only [map_append_node, Function.update_noteq hkv, Function.update_noteq hkl, e1,
        and_self]

/-- An instance of `map_add_collision_chains`: the map is `map_create(1)` after
`map_add("ab", 1)`; the key `ba` falls in the same bucket `195`, whose chain is the single node
`195`; `map_add("ba", 2)` returns `256`. -/
theorem map_add_collision_chains_witness :
    (sample_first.2.2 = 195 ∧ sample_hash.2.2 = 195 ∧ sample_first.1.values_size = 256 ∧
      sample_first.1.values_size < sample_first.1.values_alloc ∧
      map_is_chain sample_first.1 sample_hash.2.2 [] = true ∧
      (sample_first.1.values 195).ref ≠ SIZE_MAX) ∧
    ∃ as', map_add (sample_helpers true) realloc_always 10 sample_first.1 sample_first.2.1
        (c_string [98, 97]) 2 = some (as', sample_hash.2.1, sample_first.1.values_size) ∧
      MAP_HASH_MAX ≤ sample_first.1.values_size ∧
      as'.values_size = sample_first.1.values_size + 1 ∧
      map_is_chain as' sample_hash.2.2 ([] ++ [sample_first.1.values_size]) = true ∧
      (as'.values sample_first.1.values_size).next = SIZE_MAX ∧
      (as'.values sample_first.1.values_size).ref = sample_first.1.keys_size ∧
      (as'.values sample_first.1.values_size).value = 2 ∧
      (∀ k, k < sample_first.1.values_size →
        (as'.values k).ref = (sample_first.1.values k).ref ∧
        (as'.values k).value = (sample_first.1.values k).value) :=
  ⟨by decide,
    map_add_collision_chains (sample_helpers true) realloc_always 10 sample_first.1
      sample_first.2.1 (c_string [98, 97]) 2 sample_hash.1 sample_hash.2.1 sample_hash.2.2 []
      (map_reachable.add realloc_always 10 map_fresh 0 (c_string [97, 98]) 1 sample_first.1
        sample_first.2.1 sample_first.2.2 (map_reachable.create map_junk 1) (by decide)
        (Option.some_get (by decide)).symm)
      (by decide) (Option.some_get (by decide)).symm (by decide) (by decide) (by decide)
      (fun k hk => absurd hk (List.not_mem_nil k)) (by decide)⟩

/-! ### Chains of two nodes and the comparison of spellings -/

theorem map_get_hash_loop_sample_a_hash (s : Bool) (realloc : Nat → Bool) (key : Nat → Nat)
    (L : Nat) (hkey : ∀ i, i < L → key i = 97) (hend : key L = 0) (fuel : Nat) :
    ∀ (p : Nat) (as : map) (n hash : Nat), p ≤ L → L - p + 1 ≤ fuel →
      as.keys_next = as.keys_size + p → as.keys_size + L + 7 ≤ as.keys_alloc →
      as.keys_alloc < 18446744073709551616 →
      hash + 97 * (L - p) < 18446744073709551616 →
      ∃ as', map_get_hash_loop (sample_helpers s) realloc key fuel as n hash
          = some (as', n, (hash + 97 * (L - p)) % MAP_HASH_MAX)
        ∧ as'.keys_next = as.keys_size + L := by
  induction fuel with
  | zero =>
    intro p as n hash _ hf
    omega
  | succ fuel ih =>
    intro p as n hash hp hf hnext hroom halloc hsum
    have hoff : (as.keys_next + 18446744073709551616 - as.keys_size) % 18446744073709551616
        = p := by omega
    unfold map_get_hash_loop
    simp only [hoff]
    by_cases hpL : p = L
    · subst hpL
      rw [if_pos hend]
      refine ⟨as, ?_, hnext⟩
      simp
    · have hlt : p < L := by omega
      have hkp : key p = 97 := hkey p hlt
      have hconv : (sample_helpers s).utf8_convert (fun i => key (p + i)) = 97 := by
        simp [sample_helpers, sample_convert, hkp]
      obtain ⟨f, rfl⟩ : ∃ f, fuel = f + 1 := ⟨fuel - 1, by omega⟩
      rw [if_neg (by rw [hkp]; decide), hconv]
      have hsym := map_add_key_symbol_sample_a s realloc f as n (by omega) halloc
      rw [hsym]
      have hl : (!(sample_helpers s).utf8_is_letter 97 && !(sample_helpers s).utf8_is_digit 97)
          = false := by
        simp [sample_helpers, sample_is_letter]
      simp only [hl, Bool.false_eq_true, if_false, ne_eq, not_true_eq_false]
      have hh : (hash + 97) % 18446744073709551616 = hash + 97 := Nat.mod_eq_of_lt (by omega)
      obtain ⟨as', hret, hn⟩ := ih (p + 1)
        { as with keys := write_bytes as.keys as.keys_next [97, 0]
                  keys_next := as.keys_next + 1 } n ((hash + 97) % 18446744073709551616)
        (by omega) (by omega) (by simp only; omega) hroom halloc (by rw [hh]; omega)
      refine ⟨as', ?_, hn⟩
      rw [hret, hh]
      have he : hash + 97 + 97 * (L - (p + 1)) = hash + 97 * (L - p) := by omega
      rw [he]

theorem map_get_hash_sample_a_hash (s : Bool) (realloc : Nat → Bool) (key : Nat → Nat)
    (L : Nat) (hL : 1 ≤ L) (hkey : ∀ i, i < L → key i = 97) (hend : key L = 0) (fuel : Nat)
    (as : map) (n : Nat) (hf : L + 1 ≤ fuel) (hroom : as.keys_size + L + 7 ≤ as.keys_alloc)
    (halloc : as.keys_alloc < 18446744073709551616) (hsum : 97 * L < 18446744073709551616) :
    ∃ as', map_get_hash (sample_helpers s) realloc fuel as n key
        = some (as', n, 97 * L % MAP_HASH_MAX)
      ∧ as'.keys_next = as.keys_size + L := by
  obtain ⟨f, rfl⟩ : ∃ f, fuel = f + 1 := ⟨fuel - 1, by omega⟩
  have hk0 : key 0 = 97 := hkey 0 (by omega)
  have hconv : (sample_helpers s).utf8_convert key = 97 := by
    simp [sample_helpers, sample_convert, hk0]
  have hl : (!(sample_helpers s).utf8_is_letter 97) = false := by
    simp [sample_helpers, sample_is_letter]
  have hsym := map_add_key_symbol_sample_a s realloc f { as with keys_next := as.keys_size } n
    (by simp only; omega) halloc
  unfold map_get_hash
  simp only [hconv, hl, Bool.false_eq_true, if_false, hsym, ne_eq, not_true_eq_false]
  obtain ⟨as', hret, hn⟩ := map_get_hash_loop_sample_a_hash s realloc key L hkey hend (f + 1) 1
    { as with keys := write_bytes as.keys as.keys_size [97, 0], keys_next := as.keys_size + 1 }
    n 97 hL (by omega) rfl hroom halloc (by omega)
  refine ⟨as', ?_, hn⟩
  rw [hret]
  have he : 97 + 97 * (L - 1) = 97 * L := by omega
  rw [he]

/-- On `map_create(1)` the identifier of 2049 letters `a` falls in the bucket `97`; `map_add`
fills the head of that bucket and leaves the node table with its spare node. -/
theorem map_add_long_key_bucket :
    ∃ as', map_add (sample_helpers true) realloc_always 2051 map_fresh 0 long_key 0
        = some (as', 0, 97) ∧
      as'.values_size = 256 ∧ as'.values_alloc = 257 ∧
      (as'.values 97).ref = 0 ∧ (as'.values 97).next = SIZE_MAX := by
  have hkey : ∀ i, i < 2049 → long_key i = 97 :=
    fun i hi => c_string_replicate 2049 i hi
  have hend : long_key 2049 = 0 := c_string_replicate_end 2049
  have hks : map_fresh.keys_size = 0 := by simp [map_fresh, map_create]
  have halloc : map_fresh.keys_alloc = 2056 := by
    simp [map_fresh, map_create, MAP_HASH_MAX, MAP_KEY_SIZE]
  have hvs : map_fresh.values_size = 256 := by simp [map_fresh, map_create, MAP_HASH_MAX]
  have hva : map_fresh.values_alloc = 257 := by simp [map_fresh, map_create, MAP_HASH_MAX]
  have hc : map_is_correct map_fresh = true := by simp [map_fresh, map_create, map_is_correct]
  obtain ⟨as1, hhash, hnext⟩ := map_get_hash_sample_a_hash true realloc_always long_key 2049
    (by omega) hkey hend 2051 map_fresh 0 (by omega) (by rw [hks, halloc]) (by rw [halloc]; omega)
    (by omega)
  have h97 : 97 * 2049 % MAP_HASH_MAX = 97 := by decide
  rw [h97] at hhash
  obtain ⟨e1, e2, e3, e4, e5, e6, e7⟩ :=
    map_get_hash_frame (sample_helpers true) realloc_always 2051 _ _ _ _ _ _ hhash
  have hks1 : as1.keys_size = 0 := by
    rw [e7 (by decide), hks]
  have hnode : as1.values 97 = { next := SIZE_MAX, ref := SIZE_MAX, value := 7 } := by
    rw [e1]
    simp [map_fresh, map_create, MAP_HASH_MAX, map_junk]
  have hloop : map_add_by_hash_loop (sample_helpers true) as1 0 2051 97 = some (Sum.inr 97) := by
    unfold map_add_by_hash_loop
    simp [hnode]
  refine ⟨map_fill_node as1 97 0, ?_, ?_, ?_, ?_, ?_⟩
  · unfold map_add
    simp only [hc, Bool.not_true, Bool.false_eq_true, if_false, hhash]
    unfold map_add_by_hash
    rw [if_neg (by decide)]
    simp only [hloop]
    simp [hnode]
  · simp only [map_fill_node, e2, hvs]
  · simp only [map_fill_node, e3, hva]
  · simp only [map_fill_node, Function.update_same, hks1]
  · simp only [map_fill_node, Function.update_same, hnode]

/-- C11, the code at the failing input. The map is `map_create(1)` after `map_add` of the
identifier of 2049 letters `a`, which returned `97`: the map is correct, it has a spare node
(`values_size = 256 < values_alloc = 257`), and the head of bucket `97` holds that identifier.
The identifier `a` is a different spelling of the same bucket (`97 % 256 = 97`). With a `realloc`
that always succeeds, `map_add("a", v)` returns within no number of steps, for every value `v`:
the key block has fewer than `MAX_SYMBOL_SIZE` free bytes and `map_add_key_symbol` calls itself
without making room, so no node is chained and no index returned. Where the key block has room,
a chain of two nodes is enough to leave the path of the claim: on `map_create(2)` after
`map_add("acb", 1)` and `map_add("bca", 2)`, adding `cab` (bucket `38`, chain `38, 256`) makes
`map_cmp_key(38)` hand `strcmp` the characters `'a'` and `'c'` in place of two addresses, a call
that does not return in the sample environment. -/
theorem map_add_collision_does_not_return :
    ∃ as, map_add (sample_helpers true) realloc_always 2051 map_fresh 0 long_key 0
        = some (as, 0, 97) ∧
      map_reachable (sample_helpers true) as ∧ map_is_correct as = true ∧
      as.values_size = 256 ∧ as.values_alloc = 257 ∧
      (as.values 97).ref = 0 ∧ (as.values 97).next = SIZE_MAX ∧
      long_key 1 = 97 ∧ c_string [97] 1 = 0 ∧
      (sample_helpers true).utf8_convert (c_string [97]) % MAP_HASH_MAX = 97 ∧
      (∀ (fuel n : Nat) (v : Int),
        map_add (sample_helpers true) realloc_always fuel as n (c_string [97]) v = none) ∧
      ((map_add (sample_helpers true) realloc_always 10 (map_create true true map_junk 2) 0
          (c_string [97, 99, 98]) 1).bind fun x =>
        (map_add (sample_helpers true) realloc_always 10 x.1 x.2.1
          (c_string [98, 99, 97]) 2).bind fun y =>
        (map_get_hash (sample_helpers true) realloc_always 10 y.1 y.2.1
          (c_string [99, 97, 98])).map fun z =>
          (z.2.2, (z.1.values 38).next, z.1.keys (z.1.values 38).ref, z.1.keys z.1.keys_size,
            map_cmp_key (sample_helpers true) z.1 38))
        = some (38, 256, 97, 99, none) := by
  obtain ⟨as, hadd, hvs, hva, href, hnext⟩ := map_add_long_key_bucket
  obtain ⟨as2, r, hadd2, hreach, hc, hsize, halloc⟩ := map_add_long_key
  have hsame : as2 = as := by
    rw [hadd] at hadd2
    exact (congrArg Prod.fst (Option.some.inj hadd2)).symm
  subst hsame
  refine ⟨as2, hadd, hreach, hc, hvs, hva, href, hnext, c_string_replicate 2049 1 (by omega),
    by decide, by decide, ?_, by decide⟩
  intro fuel n v
  have hroom : ¬ (sample_helpers true).MAX_SYMBOL_SIZE ≤
      (({ as2 with keys_next := as2.keys_size } : map).keys_alloc + 18446744073709551616
        - ({ as2 with keys_next := as2.keys_size } : map).keys_next) % 18446744073709551616 := by
    simp [sample_helpers, hsize, halloc]
  have hsym := map_add_key_symbol_no_room_always (sample_helpers true) realloc_always
    (fun _ => rfl) fuel { as2 with keys_next := as2.keys_size } n 97 hroom
  have hconv : (sample_helpers true).utf8_convert (c_string [97]) = 97 := by decide
  have hl : (!(sample_helpers true).utf8_is_letter 97) = false := by decide
  unfold map_add map_get_hash
  simp only [hc, Bool.not_true, Bool.false_eq_true, if_false, hconv, hl, hsym]
end RuC
